import Mathlib

/-!
# bookkeeper-operator: the ZooKeeper utility layer and the cluster defaults

A shallow embedding of `pkg/util/zookeeper_util.go` - the address resolver
(`getHost`), the path builder (`getRoot`, `getZnode`), the node lifecycle
operations (`CreateZnode`, `UpdateZnode`) and the subtree eraser
(`DeleteAllZnodes`, `ListSubTreeBFS`) - together with an executable model of the
coordination service the code talks to, and of the default filling of
`pkg/apis/bookkeeper/v1alpha1/bookkeepercluster_types.go` (`WithDefaults`).

Go strings are Lean `String`s, `[]byte(s)` is kept as the string `s`, `error`
values produced by `fmt.Errorf` are their message strings (`none` is `nil`).
-/

namespace BookkeeperOperator

/-! ## Go library functions used by the code -/

/-- Go `strings.Split(s, sep)` for a one-character separator: the pieces of `s`
between the occurrences of `sep`; never empty. -/
def stringsSplit (s : String) (sep : Char) : List String :=
  (s.data.splitOn sep).map String.mk

/-- Go `strconv.Itoa`: the decimal text of an integer, with a leading `-` when negative. -/
def Itoa (n : Int) : String :=
  match n with
  | Int.ofNat m => Nat.repr m
  | Int.negSucc m => "-" ++ Nat.repr (m + 1)

/-- The character class `[1-9]`. -/
def digit19 : RegularExpression Char :=
  .char '1' + .char '2' + .char '3' + .char '4' + .char '5' + .char '6' + .char '7' +
    .char '8' + .char '9'

/-- The character class `[0-9]`. -/
def digit09 : RegularExpression Char :=
  .char '0' + digit19

/-- The quantifier `r+` (one or more). -/
def plus1 (r : RegularExpression Char) : RegularExpression Char :=
  r * .star r

/-- Does some prefix of the input belong to the language of `r`?  Brzozowski
derivatives, checking nullability after every character. -/
def matchesSomeInitial (r : RegularExpression Char) : List Char → Bool
  | [] => r.matchEpsilon
  | c :: cs => r.matchEpsilon || matchesSomeInitial (r.deriv c) cs

/-- Go `(*regexp.Regexp).MatchString`: does the string contain any match of the
expression (the search is not anchored). -/
def MatchString (r : RegularExpression Char) (s : String) : Bool :=
  s.data.tails.any (matchesSomeInitial r)

/-! ## Constants and the address resolver -/

/-- Source constant `PravegaPath`. -/
def PravegaPath : String := "pravega"

/-- Source constant `ZkFinalizer`. -/
def ZkFinalizer : String := "cleanUpZookeeper"

/-- Source constant `IPRegexp`, the pattern
`([1-9][0-9]*\.[0-9]+\.[0-9]+\.[0-9]+)` (the capture group does not change
what matches). -/
def IPRegexp : RegularExpression Char :=
  digit19 * .star digit09 * .char '.' * plus1 digit09 * .char '.' * plus1 digit09 *
    .char '.' * plus1 digit09

/-- Source `getHost`. -/
def getHost (uri : String) (namespace_ : String) : List String :=
  let zkUri := stringsSplit uri ':'
  let zkSvcName := if zkUri.length ≥ 1 then zkUri.getD 0 "" else ""
  let zkSvcPort :=
    if zkUri.length ≥ 1 then (if zkUri.length = 1 then "2181" else zkUri.getD 1 "") else ""
  let match_ := MatchString IPRegexp zkSvcName
  let hostname :=
    if match_ then zkSvcName ++ ":" ++ zkSvcPort
    else zkSvcName ++ "." ++ namespace_ ++ ".svc.cluster.local:" ++ zkSvcPort
  [hostname]

/-- Source `getRoot`: `fmt.Sprintf("/%s/%s", PravegaPath, name)`. -/
def getRoot (name : String) : String :=
  "/" ++ PravegaPath ++ "/" ++ name

/-- Source `getZnode`: `fmt.Sprintf("/%s/bookkeeper/conf", getRoot(name))`. -/
def getZnode (name : String) : String :=
  "/" ++ getRoot name ++ "/bookkeeper/conf"

/-! ## The coordination service

The client library `github.com/samuel/go-zookeeper/zk` and the service behind it
are outside the repository.  The service is modelled the way its data tree is
organised: a finite table from full path strings to nodes, the parent of a path
being the text before its last `/` (empty for a top-level node, whose parent is
the service root; the root itself is not a row of the table).  The client checks
every path before it sends anything (`validatePath`) and returns
`ErrInvalidPath` for a path it refuses.  A node's version is a counter starting
at 0 that every successful write advances by one; the version `-1` in a request
means "any". -/

/-- The library's error values that the model can produce. -/
inductive ZkError where
  | ErrConnectionClosed
  | ErrNoNode
  | ErrBadVersion
  | ErrNodeExists
  | ErrNotEmpty
  | ErrBadArguments
  | ErrInvalidPath
  deriving DecidableEq, Repr

/-- The message of a library error (`err.Error()`). -/
def ZkError.Error : ZkError → String
  | .ErrConnectionClosed => "zk: connection closed"
  | .ErrNoNode => "zk: node does not exist"
  | .ErrBadVersion => "zk: version conflict"
  | .ErrNodeExists => "zk: node already exists"
  | .ErrNotEmpty => "zk: node has children"
  | .ErrBadArguments => "invalid arguments"
  | .ErrInvalidPath => "zk: invalid path"

/-- The code points that the library's path check refuses wherever they stand:
`U+0000..U+001F`, `U+007F..U+009F`, `U+F000..U+F8FF`, `U+FFF0..U+FFFE`. -/
def forbiddenRune (r : Char) : Bool :=
  r.toNat ≤ 0x1f || (0x7f ≤ r.toNat && r.toNat ≤ 0x9f) ||
    (0xf000 ≤ r.toNat && r.toNat ≤ 0xf8ff) || (0xfff0 ≤ r.toNat && r.toNat < 0xffff)

/-- The character loop of the library's `validatePath`, started after the leading
`/`: `last2` and `last` are the two characters before the current one `r`, and
`first` tells the first round, in which the library reads the character after a
`.` at the `.` itself (its offset `w` is still 0).  A `/` must not follow a `/`;
a component `.` or `..` is refused when it ends the path or a `/` follows. -/
def validatePathLoop : Char → Char → Bool → List Char → Bool
  | _, _, _, [] => true
  | last2, last, first, r :: rest =>
    (if r = '/' then decide (last ≠ '/')
      else if r = '.' then
        !(decide ((if last = '.' then last2 else last) = '/') &&
          (rest.isEmpty || (!first && rest.head? = some '/')))
      else !forbiddenRune r) &&
    validatePathLoop last r false rest

/-- Library `validatePath(path, isSequential)`: `none` for an accepted path.  A
path is refused when it is empty, does not start with `/`, ends with `/` without
being `/` itself (unless sequential), or fails the character loop. -/
def validatePath (path : String) (isSequential : Bool) : Option ZkError :=
  match path.data with
  | [] => some .ErrInvalidPath
  | c :: rest =>
    if c ≠ '/' then some .ErrInvalidPath
    else if rest.isEmpty then none
    else if !isSequential && rest.getLast? = some '/' then some .ErrInvalidPath
    else if validatePathLoop '/' '/' true rest then none
    else some .ErrInvalidPath

/-- Splits a path at its last `/`: `(text before, text after)`, or `none` when
the path has no `/`. -/
def splitLastSlash : List Char → Option (List Char × List Char)
  | [] => none
  | c :: cs =>
    match splitLastSlash cs with
    | some (p, b) => some (c :: p, b)
    | none => if c = '/' then some ([], cs) else none

/-- The parent of a path: the text before its last `/`. -/
def parentPath (q : String) : Option String :=
  (splitLastSlash q.data).map (fun pb => String.mk pb.1)

/-- The node name of a path: the text after its last `/`. -/
def baseName (q : String) : String :=
  match splitLastSlash q.data with
  | some pb => String.mk pb.2
  | none => q

/-- A node of the service: payload and version. -/
structure DataNode where
  data : String
  version : Nat
  deriving DecidableEq, Repr

/-- The library's `Stat`, reduced to the field the code reads. -/
structure Stat where
  Version : Nat
  deriving DecidableEq, Repr

/-- The service's data: full path ↦ node. -/
abbrev DataTree := List (String × DataNode)

/-- The paths present in the tree. -/
def DataTree.paths (t : DataTree) : List String :=
  t.map Prod.fst

/-- The node stored at a path, if any. -/
def DataTree.node? (t : DataTree) (p : String) : Option DataNode :=
  (t.find? (fun kv => kv.1 = p)).map Prod.snd

/-- The paths of the direct children of `p`, in table order. -/
def DataTree.childPaths (t : DataTree) (p : String) : List String :=
  t.paths.filter (fun q => parentPath q = some p)

/-- Does a request's expected version admit the node's current version? -/
def versionOk (expected : Int) (current : Nat) : Bool :=
  expected = -1 || expected = (current : Int)

/-- Service operation `exists`. -/
def DataTree.exists (t : DataTree) (p : String) : Except ZkError (Bool × Stat) × DataTree :=
  match t.node? p with
  | some n => (.ok (true, ⟨n.version⟩), t)
  | none => (.ok (false, ⟨0⟩), t)

/-- Service operation `getChildren`: the names of the direct children. -/
def DataTree.children (t : DataTree) (p : String) : Except ZkError (List String) × DataTree :=
  match t.node? p with
  | some _ => (.ok ((t.childPaths p).map baseName), t)
  | none => (.error .ErrNoNode, t)

/-- Service operation `create` (persistent node, open ACL): the path must be new
and its parent must exist (the service root, the parent of a top-level node,
always does). -/
def DataTree.create (t : DataTree) (p : String) (data : String) :
    Except ZkError String × DataTree :=
  match parentPath p with
  | none => (.error .ErrBadArguments, t)
  | some parent =>
    if parent ≠ "" && (t.node? parent).isNone then (.error .ErrNoNode, t)
    else
      match t.node? p with
      | some _ => (.error .ErrNodeExists, t)
      | none => (.ok p, t ++ [(p, ⟨data, 0⟩)])

/-- Service operation `setData`: conditional on the version. -/
def DataTree.set (t : DataTree) (p : String) (data : String) (version : Int) :
    Except ZkError Stat × DataTree :=
  match t.node? p with
  | none => (.error .ErrNoNode, t)
  | some n =>
    if versionOk version n.version then
      (.ok ⟨n.version + 1⟩,
        t.map (fun kv => if kv.1 = p then (kv.1, ⟨data, n.version + 1⟩) else kv))
    else (.error .ErrBadVersion, t)

/-- Service operation `delete`: conditional on the version; succeeds only on an
existing node without children. -/
def DataTree.delete (t : DataTree) (p : String) (version : Int) :
    Except ZkError Unit × DataTree :=
  match t.node? p with
  | none => (.error .ErrNoNode, t)
  | some n =>
    if versionOk version n.version then
      if t.childPaths p = [] then (.ok (), t.filter (fun kv => kv.1 ≠ p))
      else (.error .ErrNotEmpty, t)
    else (.error .ErrBadVersion, t)

/-- A request sent to the service. -/
inductive Request where
  | Exists (path : String)
  | Children (path : String)
  | Create (path : String) (data : String)
  | Set (path : String) (data : String) (version : Int)
  | Delete (path : String) (version : Int)
  deriving DecidableEq, Repr

/-- The path a request addresses. -/
def Request.path : Request → String
  | .Exists p => p
  | .Children p => p
  | .Create p _ => p
  | .Set p _ _ => p
  | .Delete p _ => p

/-- The effect on the tree of a request issued by some other client; a request
on a refused path never reaches the tree. -/
def DataTree.run (t : DataTree) (req : Request) : DataTree :=
  match validatePath req.path false with
  | some _ => t
  | none =>
    match req with
    | .Exists _ => t
    | .Children _ => t
    | .Create p d => (t.create p d).2
    | .Set p d v => (t.set p d v).2
    | .Delete p v => (t.delete p v).2

/-- The world a call of the operator runs in: the service's tree, the record of
the library calls this client has made with their outcome (oldest first), and
what will happen around the upcoming round trips: `faults` holds, per upcoming
round trip, the failure the session suffers on it (if any; the request then has
no effect), `others` holds, per upcoming round trip, the requests of other
clients that the service executes just before it. -/
structure Zk where
  tree : DataTree
  trace : List (Request × Option ZkError)
  faults : List (Option ZkError)
  others : List (List Request)

/-- A world in which nothing interferes: no faults, no other clients. -/
def Zk.quiet (t : DataTree) : Zk :=
  ⟨t, [], [], []⟩

/-- The outcome recorded in the trace. -/
def outcome {α : Type} : Except ZkError α → Option ZkError
  | .ok _ => none
  | .error e => some e

/-- One round trip: the other clients' pending requests run, then either the
injected failure is reported or the operation `op` (the service's reading of
`req`) runs. -/
def Zk.call {α : Type} (zk : Zk) (req : Request)
    (op : DataTree → Except ZkError α × DataTree) : Except ZkError α × Zk :=
  let t1 := (zk.others.headD []).foldl DataTree.run zk.tree
  match zk.faults.headD none with
  | some e => (.error e, ⟨t1, zk.trace ++ [(req, some e)], zk.faults.tail, zk.others.tail⟩)
  | none =>
    let r := op t1
    (r.1, ⟨r.2, zk.trace ++ [(req, outcome r.1)], zk.faults.tail, zk.others.tail⟩)

/-- Library `zk.Connect`: fails only on an empty server list; the session is
established in the background, so an unreachable server shows as failing requests. -/
def Connect (servers : List String) : Except String Unit :=
  if servers = [] then .error "zk: server list must not be empty" else .ok ()

/-- A library call whose path the client refuses: the error comes back at once,
nothing is sent (no round trip is used up, the tree is not touched); the call
is recorded with its error. -/
def Zk.refuse {α : Type} (zk : Zk) (req : Request) (err : ZkError) : Except ZkError α × Zk :=
  (.error err, ⟨zk.tree, zk.trace ++ [(req, some err)], zk.faults, zk.others⟩)

/-- Library `(*Conn).Exists`. -/
def Zk.Exists (zk : Zk) (path : String) : Except ZkError (Bool × Stat) × Zk :=
  match validatePath path false with
  | some err => zk.refuse (.Exists path) err
  | none => zk.call (.Exists path) (fun t => t.exists path)

/-- Library `(*Conn).Children`. -/
def Zk.Children (zk : Zk) (path : String) : Except ZkError (List String) × Zk :=
  match validatePath path false with
  | some err => zk.refuse (.Children path) err
  | none => zk.call (.Children path) (fun t => t.children path)

/-- Library `(*Conn).Create` with flags 0 (not sequential) and the open ACL. -/
def Zk.Create (zk : Zk) (path : String) (data : String) : Except ZkError String × Zk :=
  match validatePath path false with
  | some err => zk.refuse (.Create path data) err
  | none => zk.call (.Create path data) (fun t => t.create path data)

/-- Library `(*Conn).Set`. -/
def Zk.Set (zk : Zk) (path : String) (data : String) (version : Int) :
    Except ZkError Stat × Zk :=
  match validatePath path false with
  | some err => zk.refuse (.Set path data version) err
  | none => zk.call (.Set path data version) (fun t => t.set path data version)

/-- Library `(*Conn).Delete`. -/
def Zk.Delete (zk : Zk) (path : String) (version : Int) : Except ZkError Unit × Zk :=
  match validatePath path false with
  | some err => zk.refuse (.Delete path version) err
  | none => zk.call (.Delete path version) (fun t => t.delete path version)

/-! ## Node lifecycle operations and the subtree eraser -/

/-- Source `CreateZnode`.  Returns the error (`none` for `nil`) and the world after the call. -/
def CreateZnode (zk : Zk) (uri : String) (namespace_ : String) (name : String)
    (replicas : Int) : Option String × Zk :=
  let host := getHost uri namespace_
  match Connect host with
  | .error err => (some ("failed to connect to zookeeper (" ++ host.headD "" ++ "): " ++ err), zk)
  | .ok _ =>
    let zNodePath := getZnode name
    match zk.Exists zNodePath with
    | (.error err, zk1) =>
      (some ("failed to check if zookeeper path exists: " ++ err.Error), zk1)
    | (.ok (exist, _), zk1) =>
      if exist then (none, zk1)
      else
        let data := "CLUSTER_SIZE=" ++ Itoa replicas
        match zk1.Create zNodePath data with
        | (.error err, zk2) =>
          (some ("failed to create znode (" ++ zNodePath ++ ") : " ++ err.Error), zk2)
        | (.ok _, zk2) => (none, zk2)

/-- Source `UpdateZnode`. -/
def UpdateZnode (zk : Zk) (uri : String) (namespace_ : String) (name : String)
    (replicas : Int) : Option String × Zk :=
  let host := getHost uri namespace_
  match Connect host with
  | .error err => (some ("failed to connect to zookeeper (" ++ host.headD "" ++ "): " ++ err), zk)
  | .ok _ =>
    let zNodePath := getZnode name
    match zk.Exists zNodePath with
    | (.error err, zk1) =>
      (some ("failed to check if zookeeper path exists: " ++ err.Error), zk1)
    | (.ok (exist, zNodeStat), zk1) =>
      if exist then
        let data := "CLUSTER_SIZE=" ++ Itoa replicas
        match zk1.Set zNodePath data zNodeStat.Version with
        | (.error err, zk2) =>
          (some ("failed to update znode (" ++ zNodePath ++ ") : " ++ err.Error), zk2)
        | (.ok _, zk2) => (none, zk2)
      else (none, zk1)

/-- The loop of source `ListSubTreeBFS`; `queue` and `tree` are the two linked
lists, front first.  `none` means the iteration bound `fuel` was exhausted. -/
def bfsLoop : Nat → Zk → List String → List String →
    Option (List String × Option ZkError × Zk)
  | 0, _, _, _ => none
  | fuel + 1, zk, queue, tree =>
    match queue with
    | [] => some (tree, none, zk)
    | node :: rest =>
      match zk.Children node with
      | (.error err, zk1) => some (tree, some err, zk1)
      | (.ok children, zk1) =>
        let added := children.map (fun child => node ++ "/" ++ child)
        bfsLoop fuel zk1 (rest ++ added) (tree ++ added)

/-- Source `ListSubTreeBFS`, with a bound on the number of loop iterations. -/
def ListSubTreeBFS (fuel : Nat) (conn : Zk) (root : String) :
    Option (List String × Option ZkError × Zk) :=
  bfsLoop fuel conn [root] [root]

/-- The deletion loop of source `DeleteAllZnodes`; the argument is the list
`tree` read from the back (`tree.Back()` first). -/
def deleteLoop : Zk → List String → Option String × Zk
  | zk, [] => (none, zk)
  | zk, back :: more =>
    match zk.Delete back (-1) with
    | (.error err, zk1) =>
      (some ("failed to delete znode (" ++ back ++ "): " ++ err.Error), zk1)
    | (.ok _, zk1) => deleteLoop zk1 more

/-- Source `DeleteAllZnodes`, with a bound on the iterations of the enumeration. -/
def DeleteAllZnodes (fuel : Nat) (zk : Zk) (uri : String) (namespace_ : String)
    (name : String) : Option (Option String × Zk) :=
  let host := getHost uri namespace_
  match Connect host with
  | .error err =>
    some (some ("failed to connect to zookeeper (" ++ host.headD "" ++ "): " ++ err), zk)
  | .ok _ =>
    let root := getRoot name
    match zk.Exists root with
    | (.error err, zk1) =>
      some (some ("failed to check if zookeeper path exists: " ++ err.Error), zk1)
    | (.ok (exist, _), zk1) =>
      if exist then
        match ListSubTreeBFS fuel zk1 root with
        | none => none
        | some (_, some err, zk2) =>
          some (some ("failed to construct BFS tree: " ++ err.Error), zk2)
        | some (tree, none, zk2) => some (deleteLoop zk2 tree.reverse)
      else some (none, zk1)

/-! ## The cluster resource (`pkg/apis/bookkeeper/v1alpha1/bookkeepercluster_types.go`)

Go pointers are `Option`s (`nil` is `none`), a nil slice or map is `none` and an
empty one is `some []`, `int32` fields are integers (the code only compares and
assigns them), a method that mutates its receiver returns the new value next to
its result.  The Kubernetes types are reduced to the fields the code sets, a
parsed quantity is kept as its text. -/

/-- Source constant `DefaultZookeeperUri`. -/
def DefaultZookeeperUri : String := "zookeeper-client:2181"

/-- Source constant `DefaultBookkeeperVersion`. -/
def DefaultBookkeeperVersion : String := "0.7.0"

/-- Source constant `DefaultBookkeeperImageRepository`. -/
def DefaultBookkeeperImageRepository : String := "pravega/bookkeeper"

/-- Source constant `DefaultBookkeeperImagePullPolicy` (`v1.PullAlways`). -/
def DefaultBookkeeperImagePullPolicy : String := "Always"

/-- Source constant `DefaultBookkeeperLedgerVolumeSize`. -/
def DefaultBookkeeperLedgerVolumeSize : String := "10Gi"

/-- Source constant `DefaultBookkeeperJournalVolumeSize`. -/
def DefaultBookkeeperJournalVolumeSize : String := "10Gi"

/-- Source constant `DefaultBookkeeperIndexVolumeSize`. -/
def DefaultBookkeeperIndexVolumeSize : String := "10Gi"

/-- Source constant `MinimumBookkeeperReplicas`. -/
def MinimumBookkeeperReplicas : Int := 3

/-- Source constant `DefaultBookkeeperRequestCPU`. -/
def DefaultBookkeeperRequestCPU : String := "500m"

/-- Source constant `DefaultBookkeeperLimitCPU`. -/
def DefaultBookkeeperLimitCPU : String := "1"

/-- Source constant `DefaultBookkeeperRequestMemory`. -/
def DefaultBookkeeperRequestMemory : String := "1Gi"

/-- Source constant `DefaultBookkeeperLimitMemory`. -/
def DefaultBookkeeperLimitMemory : String := "2Gi"

/-- Source constant `DefaultReadinessProbeInitialDelaySeconds`. -/
def DefaultReadinessProbeInitialDelaySeconds : Int := 20

/-- Source constant `DefaultReadinessProbePeriodSeconds`. -/
def DefaultReadinessProbePeriodSeconds : Int := 10

/-- Source constant `DefaultReadinessProbeFailureThreshold`. -/
def DefaultReadinessProbeFailureThreshold : Int := 9

/-- Source constant `DefaultReadinessProbeSuccessThreshold`. -/
def DefaultReadinessProbeSuccessThreshold : Int := 1

/-- Source constant `DefaultReadinessProbeTimeoutSeconds`. -/
def DefaultReadinessProbeTimeoutSeconds : Int := 5

/-- Source constant `DefaultLivenessProbeInitialDelaySeconds`. -/
def DefaultLivenessProbeInitialDelaySeconds : Int := 60

/-- Source constant `DefaultLivenessProbePeriodSeconds`. -/
def DefaultLivenessProbePeriodSeconds : Int := 15

/-- Source constant `DefaultLivenessProbeFailureThreshold`. -/
def DefaultLivenessProbeFailureThreshold : Int := 4

/-- Source constant `DefaultLivenessProbeSuccessThreshold`. -/
def DefaultLivenessProbeSuccessThreshold : Int := 1

/-- Source constant `DefaultLivenessProbeTimeoutSeconds`. -/
def DefaultLivenessProbeTimeoutSeconds : Int := 5

/-- Source type `ImageSpec`. -/
structure ImageSpec where
  Repository : String
  Tag : String
  PullPolicy : String
  deriving DecidableEq, Repr

/-- Source type `BookkeeperImageSpec`, which embeds `ImageSpec`. -/
structure BookkeeperImageSpec extends ImageSpec
  deriving DecidableEq, Repr

/-- Source type `Probe`. -/
structure Probe where
  InitialDelaySeconds : Int
  PeriodSeconds : Int
  FailureThreshold : Int
  SuccessThreshold : Int
  TimeoutSeconds : Int
  deriving DecidableEq, Repr

/-- Source type `Probes`. -/
structure Probes where
  ReadinessProbe : Option Probe
  LivenessProbe : Option Probe
  deriving DecidableEq, Repr

/-- Source type `JVMOptions`. -/
structure JVMOptions where
  MemoryOpts : Option (List String)
  GcOpts : Option (List String)
  GcLoggingOpts : Option (List String)
  ExtraOpts : Option (List String)
  deriving DecidableEq, Repr

/-- Kubernetes `v1.ResourceRequirements`: requests and limits by resource name. -/
structure ResourceRequirements where
  Requests : List (String × String)
  Limits : List (String × String)
  deriving DecidableEq, Repr

/-- Kubernetes `v1.PersistentVolumeClaimSpec`, the fields the code sets. -/
structure PersistentVolumeClaimSpec where
  AccessModes : List String
  Resources : ResourceRequirements
  deriving DecidableEq, Repr

/-- Source type `BookkeeperStorageSpec`. -/
structure BookkeeperStorageSpec where
  LedgerVolumeClaimTemplate : Option PersistentVolumeClaimSpec
  JournalVolumeClaimTemplate : Option PersistentVolumeClaimSpec
  IndexVolumeClaimTemplate : Option PersistentVolumeClaimSpec
  deriving DecidableEq, Repr

/-- Source type `BookkeeperClusterSpec`. -/
structure BookkeeperClusterSpec where
  ZookeeperUri : String
  Image : Option BookkeeperImageSpec
  Replicas : Int
  Storage : Option BookkeeperStorageSpec
  AutoRecovery : Option Bool
  ServiceAccountName : String
  Probes : Option Probes
  Resources : Option ResourceRequirements
  Options : Option (List (String × String))
  JVMOptions : Option JVMOptions
  EnvVars : String
  Version : String
  BlockOwnerDeletion : Option Bool
  deriving DecidableEq, Repr

/-- Source type `BookkeeperCluster`; the metadata and the status, whose types
are declared elsewhere, are parameters. -/
structure BookkeeperCluster (Meta Status : Type) where
  ObjectMeta : Meta
  Spec : BookkeeperClusterSpec
  Status : Status

/-- Source `(*BookkeeperImageSpec).withDefaults`: the result and the receiver afterwards. -/
def BookkeeperImageSpec.withDefaults (s : BookkeeperImageSpec) : Bool × BookkeeperImageSpec :=
  let st : Bool × BookkeeperImageSpec := (false, s)
  let st : Bool × BookkeeperImageSpec :=
    if st.2.Repository = "" then
      (true, { st.2 with Repository := DefaultBookkeeperImageRepository })
    else st
  let st : Bool × BookkeeperImageSpec := (st.1, { st.2 with Tag := "" })
  let st : Bool × BookkeeperImageSpec :=
    if st.2.PullPolicy = "" then
      (true, { st.2 with PullPolicy := DefaultBookkeeperImagePullPolicy })
    else st
  st

/-- The readiness probe that `(*Probes).withDefaults` builds. -/
def defaultReadinessProbe : Probe :=
  { InitialDelaySeconds := DefaultReadinessProbeInitialDelaySeconds
    PeriodSeconds := DefaultReadinessProbePeriodSeconds
    FailureThreshold := DefaultReadinessProbeFailureThreshold
    SuccessThreshold := DefaultReadinessProbeSuccessThreshold
    TimeoutSeconds := DefaultReadinessProbeTimeoutSeconds }

/-- The liveness probe that `(*Probes).withDefaults` builds. -/
def defaultLivenessProbe : Probe :=
  { InitialDelaySeconds := DefaultLivenessProbeInitialDelaySeconds
    PeriodSeconds := DefaultLivenessProbePeriodSeconds
    FailureThreshold := DefaultLivenessProbeFailureThreshold
    SuccessThreshold := DefaultLivenessProbeSuccessThreshold
    TimeoutSeconds := DefaultLivenessProbeTimeoutSeconds }

/-- Source `(*Probes).withDefaults`. -/
def Probes.withDefaults (s : Probes) : Bool × Probes :=
  let st : Bool × Probes := (false, s)
  let st : Bool × Probes :=
    if st.2.ReadinessProbe.isNone then
      (true, { st.2 with ReadinessProbe := some defaultReadinessProbe })
    else st
  let st : Bool × Probes :=
    if st.2.LivenessProbe.isNone then
      (true, { st.2 with LivenessProbe := some defaultLivenessProbe })
    else st
  st

/-- Source `(*JVMOptions).withDefaults`. -/
def JVMOptions.withDefaults (s : JVMOptions) : Bool × JVMOptions :=
  let st : Bool × JVMOptions := (false, s)
  let st : Bool × JVMOptions :=
    if st.2.MemoryOpts.isNone then (true, { st.2 with MemoryOpts := some [] }) else st
  let st : Bool × JVMOptions :=
    if st.2.GcOpts.isNone then (true, { st.2 with GcOpts := some [] }) else st
  let st : Bool × JVMOptions :=
    if st.2.GcLoggingOpts.isNone then (true, { st.2 with GcLoggingOpts := some [] }) else st
  let st : Bool × JVMOptions :=
    if st.2.ExtraOpts.isNone then (true, { st.2 with ExtraOpts := some [] }) else st
  st

/-- The claim template the code builds for a volume of the given size:
`ReadWriteOnce` access and a storage request. -/
def defaultVolumeClaim (size : String) : PersistentVolumeClaimSpec :=
  { AccessModes := ["ReadWriteOnce"]
    Resources := { Requests := [("storage", size)], Limits := [] } }

/-- Source `(*BookkeeperStorageSpec).withDefaults`. -/
def BookkeeperStorageSpec.withDefaults (s : BookkeeperStorageSpec) :
    Bool × BookkeeperStorageSpec :=
  let st : Bool × BookkeeperStorageSpec := (false, s)
  let st : Bool × BookkeeperStorageSpec :=
    if st.2.LedgerVolumeClaimTemplate.isNone then
      (true, { st.2 with
        LedgerVolumeClaimTemplate := some (defaultVolumeClaim DefaultBookkeeperLedgerVolumeSize) })
    else st
  let st : Bool × BookkeeperStorageSpec :=
    if st.2.JournalVolumeClaimTemplate.isNone then
      (true, { st.2 with
        JournalVolumeClaimTemplate :=
          some (defaultVolumeClaim DefaultBookkeeperJournalVolumeSize) })
    else st
  let st : Bool × BookkeeperStorageSpec :=
    if st.2.IndexVolumeClaimTemplate.isNone then
      (true, { st.2 with
        IndexVolumeClaimTemplate := some (defaultVolumeClaim DefaultBookkeeperIndexVolumeSize) })
    else st
  st

/-- The state of `(*BookkeeperClusterSpec).withDefaults` between two statements:
the value of `changed` and the receiver. -/
abbrev SpecState := Bool × BookkeeperClusterSpec

/-- Block `if s.ZookeeperUri == "" { ... }`. -/
def defaultZookeeperUri (st : SpecState) : SpecState :=
  if st.2.ZookeeperUri = "" then (true, { st.2 with ZookeeperUri := DefaultZookeeperUri })
  else st

/-- Blocks `if s.Image == nil { ... }` and `if s.Image.withDefaults() { ... }`. -/
def defaultImage (st : SpecState) : SpecState :=
  let st : SpecState :=
    if st.2.Image.isNone then (true, { st.2 with Image := some ⟨⟨"", "", ""⟩⟩ }) else st
  match st.2.Image with
  | some image =>
    (if image.withDefaults.1 then true else st.1, { st.2 with Image := some image.withDefaults.2 })
  | none => st

/-- Block `if !config.TestMode && s.Replicas < MinimumBookkeeperReplicas { ... }`;
`config.TestMode`, a variable of a package outside the sources, is a parameter. -/
def defaultReplicas (testMode : Bool) (st : SpecState) : SpecState :=
  if !testMode && decide (st.2.Replicas < MinimumBookkeeperReplicas) then
    (true, { st.2 with Replicas := MinimumBookkeeperReplicas })
  else st

/-- Blocks `if s.Storage == nil { ... }` and `if s.Storage.withDefaults() { ... }`. -/
def defaultStorage (st : SpecState) : SpecState :=
  let st : SpecState :=
    if st.2.Storage.isNone then (true, { st.2 with Storage := some ⟨none, none, none⟩ }) else st
  match st.2.Storage with
  | some storage =>
    (if storage.withDefaults.1 then true else st.1,
      { st.2 with Storage := some storage.withDefaults.2 })
  | none => st

/-- Block `if s.AutoRecovery == nil { ... }`. -/
def defaultAutoRecovery (st : SpecState) : SpecState :=
  if st.2.AutoRecovery.isNone then (true, { st.2 with AutoRecovery := some true }) else st

/-- Blocks `if s.Probes == nil { ... }` and `if s.Probes.withDefaults() { ... }`. -/
def defaultProbes (st : SpecState) : SpecState :=
  let st : SpecState :=
    if st.2.Probes.isNone then (true, { st.2 with Probes := some ⟨none, none⟩ }) else st
  match st.2.Probes with
  | some probes =>
    (if probes.withDefaults.1 then true else st.1,
      { st.2 with Probes := some probes.withDefaults.2 })
  | none => st

/-- The resource requirements that `(*BookkeeperClusterSpec).withDefaults` builds. -/
def defaultResourceRequirements : ResourceRequirements :=
  { Requests := [("cpu", DefaultBookkeeperRequestCPU), ("memory", DefaultBookkeeperRequestMemory)]
    Limits := [("cpu", DefaultBookkeeperLimitCPU), ("memory", DefaultBookkeeperLimitMemory)] }

/-- Block `if s.Resources == nil { ... }`. -/
def defaultResources (st : SpecState) : SpecState :=
  if st.2.Resources.isNone then
    (true, { st.2 with Resources := some defaultResourceRequirements })
  else st

/-- Block `if s.Options == nil { ... }`, which does not set `changed`. -/
def defaultOptions (st : SpecState) : SpecState :=
  if st.2.Options.isNone then (st.1, { st.2 with Options := some [] }) else st

/-- Blocks `if s.JVMOptions == nil { ... }` and `if s.JVMOptions.withDefaults() { ... }`. -/
def defaultJVMOptions (st : SpecState) : SpecState :=
  let st : SpecState :=
    if st.2.JVMOptions.isNone then
      (true, { st.2 with JVMOptions := some ⟨none, none, none, none⟩ })
    else st
  match st.2.JVMOptions with
  | some jvm =>
    (if jvm.withDefaults.1 then true else st.1, { st.2 with JVMOptions := some jvm.withDefaults.2 })
  | none => st

/-- Block `if s.Version == "" { ... }`. -/
def defaultVersion (st : SpecState) : SpecState :=
  if st.2.Version = "" then (true, { st.2 with Version := DefaultBookkeeperVersion }) else st

/-- Block `if s.BlockOwnerDeletion == nil { ... }`. -/
def defaultBlockOwnerDeletion (st : SpecState) : SpecState :=
  if st.2.BlockOwnerDeletion.isNone then (true, { st.2 with BlockOwnerDeletion := some true })
  else st

/-- Source `(*BookkeeperClusterSpec).withDefaults`: its blocks in order, `changed`
starting as `false`. -/
def BookkeeperClusterSpec.withDefaults (testMode : Bool) (s : BookkeeperClusterSpec) :
    SpecState :=
  defaultBlockOwnerDeletion (defaultVersion (defaultJVMOptions (defaultOptions
    (defaultResources (defaultProbes (defaultAutoRecovery (defaultStorage
      (defaultReplicas testMode (defaultImage (defaultZookeeperUri (false, s)))))))))))

/-- Source `(*BookkeeperCluster).WithDefaults`. -/
def BookkeeperCluster.WithDefaults {Meta Status : Type} (testMode : Bool)
    (bk : BookkeeperCluster Meta Status) : Bool × BookkeeperCluster Meta Status :=
  let r := bk.Spec.withDefaults testMode
  (r.1, { bk with Spec := r.2 })

/-- The cluster resource with every field of its spec at the zero value. -/
def emptyCluster : BookkeeperCluster Unit Unit :=
  { ObjectMeta := ()
    Spec :=
      { ZookeeperUri := "", Image := none, Replicas := 0, Storage := none, AutoRecovery := none,
        ServiceAccountName := "", Probes := none, Resources := none, Options := none,
        JVMOptions := none, EnvVars := "", Version := "", BlockOwnerDeletion := none }
    Status := () }

/-- The statements of `withDefaults` that come after the replicas block. -/
def afterReplicas (st : SpecState) : SpecState :=
  defaultBlockOwnerDeletion (defaultVersion (defaultJVMOptions (defaultOptions
    (defaultResources (defaultProbes (defaultAutoRecovery (defaultStorage st)))))))

/-! ## Vocabulary of the properties -/

/-- No failure is injected on any upcoming request. -/
def Zk.noFaults (zk : Zk) : Prop :=
  ∀ f ∈ zk.faults, f = none

/-- No other client acts around any upcoming request. -/
def Zk.alone (zk : Zk) : Prop :=
  ∀ l ∈ zk.others, l = []

instance (zk : Zk) : Decidable zk.noFaults := by
  unfold Zk.noFaults; infer_instance

instance (zk : Zk) : Decidable zk.alone := by
  unfold Zk.alone; infer_instance

/-- The text of a uri before its first `:`. -/
def hostSegment (uri : String) : String :=
  ⟨uri.data.takeWhile (· ≠ ':')⟩

/-- The port named by a uri: the text between its first and second `:` (or to
the end), and `"2181"` when the uri has no `:`. -/
def portSegment (uri : String) : String :=
  if ':' ∈ uri.data then ⟨((uri.data.dropWhile (· ≠ ':')).drop 1).takeWhile (· ≠ ':')⟩
  else "2181"

/-- A decimal digit. -/
def isDecimalDigit (c : Char) : Bool :=
  c ∈ ['0', '1', '2', '3', '4', '5', '6', '7', '8', '9']

/-- Four dot-separated non-empty groups of decimal digits. -/
def isDottedQuad (host : String) : Bool :=
  (host.data.splitOn '.').length = 4 &&
    (host.data.splitOn '.').all (fun g => g ≠ [] && g.all isDecimalDigit)

/-- Does the host begin with the digit `0`? -/
def hasLeadingZero (host : String) : Bool :=
  host.data.head? = some '0'

/-- Is the first dot-separated group of the host made of the digit `0` only? -/
def firstGroupZero (host : String) : Bool :=
  ((host.data.splitOn '.').headD []).all (· = '0')

/-- The depth of a path: its number of `/`. -/
def depth (q : String) : Nat :=
  q.data.count '/'

/-- The path `q` is a proper descendant of `root`: it extends `root ++ "/"`. -/
def isDescendant (root q : String) : Prop :=
  (root.data ++ ['/']) <+: q.data

/-- The path `q` lies in the subtree rooted at `root`. -/
def inSubtree (root q : String) : Prop :=
  q = root ∨ isDescendant root q

instance (root q : String) : Decidable (isDescendant root q) := by
  unfold isDescendant; infer_instance

instance (root q : String) : Decidable (inSubtree root q) := by
  unfold inSubtree; infer_instance

/-- A well-formed tree: the paths are distinct, every path that has a parent
path other than the service root has it in the tree, and every path is one the
path check accepts, other than the service root `/`. -/
def DataTree.wellFormed (t : DataTree) : Prop :=
  t.paths.Nodup ∧
    (∀ q ∈ t.paths,
      parentPath q = none ∨ parentPath q = some "" ∨ ∃ p ∈ t.paths, parentPath q = some p) ∧
    ∀ q ∈ t.paths, validatePath q false = none ∧ q ≠ "/"

instance (t : DataTree) : Decidable t.wellFormed := by
  unfold DataTree.wellFormed; infer_instance

/-- The enumeration `l` of the subtree of `root` in `t` is a breadth-first one. -/
structure BfsOrder (t : DataTree) (root : String) (l : List String) : Prop where
  head : l.head? = some root
  nodup : l.Nodup
  mem : ∀ q, q ∈ l ↔ q ∈ t.paths ∧ inSubtree root q
  sorted : l.Pairwise (fun a b => depth a ≤ depth b)
  parent : ∀ q ∈ l, q ≠ root → ∃ p ∈ l, parentPath q = some p

/-- The loop invariant of the enumeration: `done` are the dequeued paths,
`queue` the waiting ones; the list built so far is `done ++ queue`. -/
structure BfsInv (t : DataTree) (root : String) (done queue : List String) : Prop where
  head : (done ++ queue).head? = some root
  nodup : (done ++ queue).Nodup
  sound : ∀ x ∈ done ++ queue, x ∈ t.paths ∧ inSubtree root x
  sorted : (done ++ queue).Pairwise (fun a b => depth a ≤ depth b)
  near : ∀ x ∈ done ++ queue, ∀ h ∈ queue, depth x ≤ depth h + 1
  closed : ∀ d ∈ done, ∀ k ∈ t.paths, parentPath k = some d → k ∈ done ++ queue
  parent : ∀ x ∈ done ++ queue, x = root ∨ ∃ d ∈ done, parentPath x = some d

/-- The path `a` occurs before the path `b` in the list `l`. -/
def occursBefore (l : List String) (a b : String) : Prop :=
  ∃ l1 l2 l3, l = l1 ++ a :: (l2 ++ b :: l3)

/-- The paths of the delete requests recorded in a trace, in the order issued. -/
def deletedPaths (trace : List (Request × Option ZkError)) : List String :=
  trace.filterMap (fun entry =>
    match entry.1 with
    | .Delete p _ => some p
    | _ => none)

/-- The service holding the cluster `c` with the subtree `root -> {a, b}`,
`a -> {a1}`, next to a cluster `cc`. -/
def exampleTree : DataTree :=
  [("/pravega", ⟨"", 0⟩), ("/pravega/c", ⟨"", 0⟩), ("/pravega/c/a", ⟨"", 0⟩),
    ("/pravega/c/b", ⟨"", 0⟩), ("/pravega/c/a/a1", ⟨"", 0⟩), ("/pravega/cc", ⟨"", 0⟩)]

/-- The number of children lookups in a trace that were answered: one per
completed iteration of the enumeration loop, which removes the front of the
queue exactly when its lookup succeeded. -/
def lookupsServed (trace : List (Request × Option ZkError)) : Nat :=
  trace.countP (fun entry =>
    match entry with
    | (.Children _, none) => true
    | _ => false)

/-- The example tree with a session that loses its seventh request, the
second delete. -/
def exampleFailingDelete : Zk :=
  ⟨exampleTree, [], [none, none, none, none, none, none, some .ErrConnectionClosed], []⟩

/-- The example tree with a session that loses its third request, the
second children lookup. -/
def exampleFailingLookup : Zk :=
  ⟨exampleTree, [], [none, none, some .ErrConnectionClosed], []⟩

/-- The world left by `DeleteAllZnodes` on `exampleFailingDelete`: `a1` is gone,
the delete of `b` has failed. -/
def exampleAfterFailure : Zk :=
  ⟨[("/pravega", ⟨"", 0⟩), ("/pravega/c", ⟨"", 0⟩), ("/pravega/c/a", ⟨"", 0⟩),
      ("/pravega/c/b", ⟨"", 0⟩), ("/pravega/cc", ⟨"", 0⟩)],
    [(Request.Exists "/pravega/c", none), (Request.Children "/pravega/c", none),
      (Request.Children "/pravega/c/a", none), (Request.Children "/pravega/c/b", none),
      (Request.Children "/pravega/c/a/a1", none), (Request.Delete "/pravega/c/a/a1" (-1), none),
      (Request.Delete "/pravega/c/b" (-1), some .ErrConnectionClosed)], [], []⟩

/-- The decimal digits of a natural number, most significant first. -/
def decimalDigits (n : Nat) : List Char :=
  if _h : n < 10 then [Nat.digitChar n] else decimalDigits (n / 10) ++ [Nat.digitChar (n % 10)]
termination_by n
decreasing_by omega

/-- The decimal text of an integer: a `-` for a negative one, then the digits
of its absolute value. -/
def decimalText (r : Int) : String :=
  if r < 0 then "-" ++ String.mk (decimalDigits r.natAbs) else String.mk (decimalDigits r.natAbs)

/-- A service that holds the cluster `c` with its configuration node where the
layout puts it, under the cluster root, written for three replicas. -/
def exampleConfigured : DataTree :=
  [("/pravega", ⟨"", 0⟩), ("/pravega/c", ⟨"", 0⟩), ("/pravega/c/bookkeeper", ⟨"", 0⟩),
    ("/pravega/c/bookkeeper/conf", ⟨"CLUSTER_SIZE=3", 0⟩)]

/-- The write requests (create or set) recorded in a trace. -/
def writesIssued (trace : List (Request × Option ZkError)) : List Request :=
  (trace.map Prod.fst).filter (fun req =>
    match req with
    | .Create _ _ => true
    | .Set _ _ _ => true
    | _ => false)

/-- The spec that `withDefaults` leaves, field by field. -/
def filledSpec (testMode : Bool) (s : BookkeeperClusterSpec) : BookkeeperClusterSpec :=
  { ZookeeperUri := if s.ZookeeperUri = "" then DefaultZookeeperUri else s.ZookeeperUri
    Image := some (s.Image.getD ⟨⟨"", "", ""⟩⟩).withDefaults.2
    Replicas :=
      if !testMode && decide (s.Replicas < MinimumBookkeeperReplicas) then
        MinimumBookkeeperReplicas
      else s.Replicas
    Storage := some (s.Storage.getD ⟨none, none, none⟩).withDefaults.2
    AutoRecovery := some (s.AutoRecovery.getD true)
    ServiceAccountName := s.ServiceAccountName
    Probes := some (s.Probes.getD ⟨none, none⟩).withDefaults.2
    Resources := some (s.Resources.getD defaultResourceRequirements)
    Options := some (s.Options.getD [])
    JVMOptions := some (s.JVMOptions.getD ⟨none, none, none, none⟩).withDefaults.2
    EnvVars := s.EnvVars
    Version := if s.Version = "" then DefaultBookkeeperVersion else s.Version
    BlockOwnerDeletion := some (s.BlockOwnerDeletion.getD true) }

/-- The value of `changed` that `withDefaults` returns: one test per block that sets it. -/
def specChanged (testMode : Bool) (s : BookkeeperClusterSpec) : Bool :=
  decide (s.ZookeeperUri = "") ||
    (s.Image.isNone || (s.Image.getD ⟨⟨"", "", ""⟩⟩).withDefaults.1) ||
    (!testMode && decide (s.Replicas < MinimumBookkeeperReplicas)) ||
    (s.Storage.isNone || (s.Storage.getD ⟨none, none, none⟩).withDefaults.1) ||
    s.AutoRecovery.isNone ||
    (s.Probes.isNone || (s.Probes.getD ⟨none, none⟩).withDefaults.1) ||
    s.Resources.isNone ||
    (s.JVMOptions.isNone || (s.JVMOptions.getD ⟨none, none, none, none⟩).withDefaults.1) ||
    decide (s.Version = "") ||
    s.BlockOwnerDeletion.isNone

/-! ## Properties -/

/-! ### Round trips -/

theorem call_plain {α : Type} (zk : Zk) (req : Request)
    (op : DataTree → Except ZkError α × DataTree)
    (hf : zk.faults.headD none = none) (ho : zk.others.headD [] = []) :
    zk.call req op =
      ((op zk.tree).1,
        ⟨(op zk.tree).2, zk.trace ++ [(req, outcome (op zk.tree).1)], zk.faults.tail,
          zk.others.tail⟩) := by
  unfold Zk.call
  simp only [hf, ho, List.foldl_nil]

theorem call_served {α : Type} (zk : Zk) (req : Request)
    (op : DataTree → Except ZkError α × DataTree) (hf : zk.faults.headD none = none) :
    zk.call req op =
      ((op ((zk.others.headD []).foldl DataTree.run zk.tree)).1,
        ⟨(op ((zk.others.headD []).foldl DataTree.run zk.tree)).2,
          zk.trace ++ [(req, outcome (op ((zk.others.headD []).foldl DataTree.run zk.tree)).1)],
          zk.faults.tail, zk.others.tail⟩) := by
  unfold Zk.call
  simp only [hf]

theorem faults_head (l : List (Option ZkError)) (h : ∀ f ∈ l, f = none) :
    l.headD none = none := by
  cases l with
  | nil => rfl
  | cons a l => simpa using h a (by simp)

theorem faults_tail (l : List (Option ZkError)) (h : ∀ f ∈ l, f = none) :
    ∀ f ∈ l.tail, f = none :=
  fun f hfm => h f (List.mem_of_mem_tail hfm)

theorem others_head (l : List (List Request)) (h : ∀ f ∈ l, f = []) : l.headD [] = [] := by
  cases l with
  | nil => rfl
  | cons a l => simpa using h a (by simp)

theorem others_tail (l : List (List Request)) (h : ∀ f ∈ l, f = []) :
    ∀ f ∈ l.tail, f = [] :=
  fun f hfm => h f (List.mem_of_mem_tail hfm)

theorem connect_getHost (uri ns : String) : Connect (getHost uri ns) = .ok () := by
  simp [Connect, getHost]

theorem validatePath_cases (p : String) :
    validatePath p false = none ∨ validatePath p false = some .ErrInvalidPath := by
  unfold validatePath
  split
  · exact Or.inr rfl
  · split
    · exact Or.inr rfl
    · split
      · exact Or.inl rfl
      · split
        · exact Or.inr rfl
        · split
          · exact Or.inl rfl
          · exact Or.inr rfl

theorem valid_ne_empty (p : String) (hv : validatePath p false = none) : p ≠ "" := by
  intro h
  rw [h] at hv
  exact absurd hv (by decide)

theorem Exists_valid (zk : Zk) (p : String) (hv : validatePath p false = none) :
    zk.Exists p = zk.call (.Exists p) (fun t => t.exists p) := by
  simp only [Zk.Exists, hv]

theorem Children_valid (zk : Zk) (p : String) (hv : validatePath p false = none) :
    zk.Children p = zk.call (.Children p) (fun t => t.children p) := by
  simp only [Zk.Children, hv]

theorem Delete_valid (zk : Zk) (p : String) (v : Int) (hv : validatePath p false = none) :
    zk.Delete p v = zk.call (.Delete p v) (fun t => t.delete p v) := by
  simp only [Zk.Delete, hv]

theorem Exists_refused (zk : Zk) (p : String)
    (hv : validatePath p false = some .ErrInvalidPath) :
    zk.Exists p =
      (.error .ErrInvalidPath,
        ⟨zk.tree, zk.trace ++ [(Request.Exists p, some .ErrInvalidPath)], zk.faults,
          zk.others⟩) := by
  simp only [Zk.Exists, hv, Zk.refuse]

theorem Children_refused (zk : Zk) (p : String)
    (hv : validatePath p false = some .ErrInvalidPath) :
    zk.Children p =
      (.error .ErrInvalidPath,
        ⟨zk.tree, zk.trace ++ [(Request.Children p, some .ErrInvalidPath)], zk.faults,
          zk.others⟩) := by
  simp only [Zk.Children, hv, Zk.refuse]

theorem getRoot_ne_empty (name : String) : getRoot name ≠ "" := by
  intro h
  have := congrArg String.data h
  simp [getRoot, PravegaPath, String.data_append] at this

/-! ### Path builder -/

/-- C1 (the code departs from the claim): `getZnode` puts a second `/` in front of
the root path, so the configuration path is `"//pravega/" ++ name ++
"/bookkeeper/conf"`, which is not `getRoot name ++ "/bookkeeper/conf"`; for
`"mycluster"` it is `"//pravega/mycluster/bookkeeper/conf"`. -/
theorem getZnode_double_slash :
    (∀ name : String, getZnode name = "/" ++ (getRoot name ++ "/bookkeeper/conf")) ∧
      getRoot "mycluster" = "/pravega/mycluster" ∧
      getZnode "mycluster" = "//pravega/mycluster/bookkeeper/conf" ∧
      getZnode "mycluster" ≠ getRoot "mycluster" ++ "/bookkeeper/conf" := by
  refine ⟨fun name => ?_, by decide, by decide, by decide⟩
  simp [getZnode, String.append_assoc]

/-! ### Create and update -/

theorem getZnode_refused (name : String) :
    validatePath (getZnode name) false = some .ErrInvalidPath := by
  have hz : (getZnode name).data =
      '/' :: '/' :: ("pravega/".data ++ name.data ++ "/bookkeeper/conf".data) := by
    simp [getZnode, getRoot, PravegaPath, String.data_append]
  unfold validatePath
  rw [hz]
  simp [validatePathLoop]

theorem CreateZnode_refused (zk : Zk) (uri ns name : String) (replicas : Int) :
    CreateZnode zk uri ns name replicas =
      (some "failed to check if zookeeper path exists: zk: invalid path",
        ⟨zk.tree, zk.trace ++ [(Request.Exists (getZnode name), some .ErrInvalidPath)],
          zk.faults, zk.others⟩) := by
  simp only [CreateZnode, connect_getHost, Exists_refused zk _ (getZnode_refused name)]
  rfl

theorem UpdateZnode_refused (zk : Zk) (uri ns name : String) (replicas : Int) :
    UpdateZnode zk uri ns name replicas =
      (some "failed to check if zookeeper path exists: zk: invalid path",
        ⟨zk.tree, zk.trace ++ [(Request.Exists (getZnode name), some .ErrInvalidPath)],
          zk.faults, zk.others⟩) := by
  simp only [UpdateZnode, connect_getHost, Exists_refused zk _ (getZnode_refused name)]
  rfl

theorem writesIssued_append (a b : List (Request × Option ZkError)) :
    writesIssued (a ++ b) = writesIssued a ++ writesIssued b := by
  simp [writesIssued]

/-- C5 (the code departs from the claim): the path that `CreateZnode` hands to the
client starts with `//` (the defect of C1), the client refuses it before it
sends anything, and so, for every world, name and replica counts, each of two
successive calls returns the error `failed to check if zookeeper path exists:
zk: invalid path` and the tree stays as it was - no node is created.  On the
example service holding the cluster `c` neither call creates the configuration
node, at the path the code computes or at the one the layout gives. -/
theorem CreateZnode_invalid_path (zk : Zk) (uri ns name : String) (r1 r2 : Int) :
    (CreateZnode zk uri ns name r1).1 =
        some "failed to check if zookeeper path exists: zk: invalid path" ∧
      (CreateZnode (CreateZnode zk uri ns name r1).2 uri ns name r2).1 =
        some "failed to check if zookeeper path exists: zk: invalid path" ∧
      (CreateZnode (CreateZnode zk uri ns name r1).2 uri ns name r2).2.tree = zk.tree ∧
      (CreateZnode (CreateZnode zk uri ns name r1).2 uri ns name r2).2.trace =
        zk.trace ++ [(Request.Exists (getZnode name), some .ErrInvalidPath),
          (Request.Exists (getZnode name), some .ErrInvalidPath)] ∧
      exampleTree.wellFormed ∧
      (CreateZnode (Zk.quiet exampleTree) "zookeeper-client:2181" "ns1" "c" 3).1 =
        some "failed to check if zookeeper path exists: zk: invalid path" ∧
      (CreateZnode (CreateZnode (Zk.quiet exampleTree) "zookeeper-client:2181" "ns1" "c" 3).2
          "zookeeper-client:2181" "ns1" "c" 5).2.tree.node? (getZnode "c") = none ∧
      (CreateZnode (CreateZnode (Zk.quiet exampleTree) "zookeeper-client:2181" "ns1" "c" 3).2
          "zookeeper-client:2181" "ns1" "c" 5).2.tree.node? "/pravega/c/bookkeeper/conf" =
        none := by
  refine ⟨?_, ?_, ?_, ?_, by decide, by decide, by decide, by decide⟩
  · rw [CreateZnode_refused]
  · rw [CreateZnode_refused]
  · rw [CreateZnode_refused, CreateZnode_refused]
  · rw [CreateZnode_refused, CreateZnode_refused]
    simp

/-- C6 (the code departs from the claim): for every world, name and replica count
`UpdateZnode` returns the error `failed to check if zookeeper path exists: zk:
invalid path`, not success: the client refuses the path built by `getZnode`
(the defect of C1) at the existence check.  The tree is left as it was; so it
is on the example service, which holds the cluster `c` and no configuration
node. -/
theorem UpdateZnode_invalid_path (zk : Zk) (uri ns name : String) (replicas : Int) :
    (UpdateZnode zk uri ns name replicas).1 =
        some "failed to check if zookeeper path exists: zk: invalid path" ∧
      (UpdateZnode zk uri ns name replicas).1 ≠ none ∧
      (UpdateZnode zk uri ns name replicas).2.tree = zk.tree ∧
      exampleTree.wellFormed ∧
      exampleTree.node? (getZnode "c") = none ∧
      exampleTree.node? "/pravega/c/bookkeeper/conf" = none ∧
      (UpdateZnode (Zk.quiet exampleTree) "zookeeper-client:2181" "ns1" "c" 3).1 =
        some "failed to check if zookeeper path exists: zk: invalid path" := by
  refine ⟨?_, ?_, ?_, by decide, by decide, by decide, by decide⟩
  · rw [UpdateZnode_refused]
  · rw [UpdateZnode_refused]; simp
  · rw [UpdateZnode_refused]

/-- C7 (the code departs from the claim): `UpdateZnode` never submits a write.
For every world, name and replica count the only library call it makes is the
existence check, which the client refuses (the path of `getZnode` starts with
`//`, the defect of C1); no set request is recorded, so no version is ever
compared and the error returned is the one of the existence check, never a
version conflict.  On the example service, whose configuration node another
client rewrites during the call, the call returns that error and uses up no
round trip. -/
theorem UpdateZnode_never_writes (zk : Zk) (uri ns name : String) (replicas : Int) :
    (UpdateZnode zk uri ns name replicas).2.trace =
        zk.trace ++ [(Request.Exists (getZnode name), some .ErrInvalidPath)] ∧
      writesIssued (UpdateZnode zk uri ns name replicas).2.trace = writesIssued zk.trace ∧
      (UpdateZnode zk uri ns name replicas).1 ≠
        some ("failed to update znode (" ++ getZnode name ++ ") : " ++
          ZkError.ErrBadVersion.Error) ∧
      exampleConfigured.wellFormed ∧
      (UpdateZnode
          ⟨exampleConfigured, [], [],
            [[], [Request.Set "/pravega/c/bookkeeper/conf" "CLUSTER_SIZE=4" (-1)]]⟩
          "zookeeper-client:2181" "ns1" "c" 5).1 =
        some "failed to check if zookeeper path exists: zk: invalid path" ∧
      (UpdateZnode
          ⟨exampleConfigured, [], [],
            [[], [Request.Set "/pravega/c/bookkeeper/conf" "CLUSTER_SIZE=4" (-1)]]⟩
          "zookeeper-client:2181" "ns1" "c" 5).2.others =
        [[], [Request.Set "/pravega/c/bookkeeper/conf" "CLUSTER_SIZE=4" (-1)]] := by
  refine ⟨?_, ?_, ?_, by decide, by decide, by decide⟩
  · rw [UpdateZnode_refused]
  · rw [UpdateZnode_refused, writesIssued_append]
    simp [writesIssued]
  · rw [UpdateZnode_refused]
    intro h
    simp only [Option.some.injEq] at h
    have := congrArg String.data h
    simp [String.data_append] at this

/-! ### Address resolver -/

theorem splitOn_colon (l : List Char) :
    l.splitOn ':' = l.takeWhile (· ≠ ':') ::
      (if ':' ∈ l then ((l.dropWhile (· ≠ ':')).drop 1).splitOn ':' else []) := by
  induction l with
  | nil => rfl
  | cons x xs ih =>
    unfold List.splitOn at ih ⊢
    rw [List.splitOnP_cons]
    by_cases hx : x = ':'
    · subst hx
      simp
    · have hx' : (':' : Char) ≠ x := fun h => hx h.symm
      rw [ih]
      simp [hx, hx']

theorem splitOn_colon_ne_nil (l : List Char) : l.splitOn ':' ≠ [] := by
  rw [splitOn_colon]; simp

theorem getHost_eq (uri ns : String) :
    getHost uri ns =
      [if MatchString IPRegexp (hostSegment uri) then hostSegment uri ++ ":" ++ portSegment uri
        else hostSegment uri ++ "." ++ ns ++ ".svc.cluster.local:" ++ portSegment uri] := by
  unfold getHost stringsSplit hostSegment portSegment
  rw [splitOn_colon uri.data]
  by_cases hc : ':' ∈ uri.data
  · rw [if_pos hc, if_pos hc, splitOn_colon]
    simp
  · rw [if_neg hc, if_neg hc]
    simp


/-- C10: the endpoint of `getHost` ends in `:` followed by the port, the port
holds no `:` (so it is the text after the endpoint's final `:`), it is `"2181"`
when the uri has no `:` and otherwise the second `:`-separated segment of the
uri; what precedes is the first segment, alone or expanded with the namespace. -/
theorem getHost_port (uri ns : String) :
    ∃ pre : String,
      getHost uri ns = [pre ++ ":" ++ portSegment uri] ∧
      ':' ∉ (portSegment uri).data ∧
      (pre = hostSegment uri ∨ pre = hostSegment uri ++ "." ++ ns ++ ".svc.cluster.local") ∧
      hostSegment uri = (stringsSplit uri ':').getD 0 "" ∧
      portSegment uri =
        (if ':' ∈ uri.data then (stringsSplit uri ':').getD 1 "" else "2181") := by
  have hport : ':' ∉ (portSegment uri).data := by
    unfold portSegment
    split
    · intro h
      have := List.mem_takeWhile_imp h
      simp at this
    · decide
  have hseg0 : hostSegment uri = (stringsSplit uri ':').getD 0 "" := by
    unfold stringsSplit hostSegment
    rw [splitOn_colon]; simp
  have hseg1 : portSegment uri =
      (if ':' ∈ uri.data then (stringsSplit uri ':').getD 1 "" else "2181") := by
    unfold stringsSplit portSegment
    by_cases hc : ':' ∈ uri.data
    · rw [if_pos hc, if_pos hc, splitOn_colon, if_pos hc, splitOn_colon]; simp
    · rw [if_neg hc, if_neg hc]
  rw [getHost_eq]
  by_cases hm : MatchString IPRegexp (hostSegment uri) = true
  · exact ⟨hostSegment uri, by rw [if_pos hm], hport, Or.inl rfl, hseg0, hseg1⟩
  · refine ⟨hostSegment uri ++ "." ++ ns ++ ".svc.cluster.local", ?_, hport, Or.inr rfl,
      hseg0, hseg1⟩
    rw [if_neg hm]
    congr 1
    apply String.ext
    simp [String.data_append]

theorem rmatch_initial (s t : List Char) :
    ∀ r : RegularExpression Char, r.rmatch s = true → matchesSomeInitial r (s ++ t) = true := by
  induction s with
  | nil =>
    intro r h
    cases t with
    | nil => simpa [matchesSomeInitial, RegularExpression.rmatch] using h
    | cons c cs =>
      simp only [RegularExpression.rmatch] at h
      simp [matchesSomeInitial, h]
  | cons c s ih =>
    intro r h
    simp only [RegularExpression.rmatch] at h
    simp [matchesSomeInitial, ih _ h]

theorem MatchString_of_mem (r : RegularExpression Char) (a m b : List Char)
    (h : m ∈ r.matches') : MatchString r ⟨a ++ m ++ b⟩ = true := by
  unfold MatchString
  rw [List.any_eq_true]
  refine ⟨m ++ b, ?_, rmatch_initial m b r ((RegularExpression.rmatch_iff_matches' r m).2 h)⟩
  rw [List.mem_tails]
  exact ⟨a, by simp⟩

theorem digit19_mem (c : Char) (h : isDecimalDigit c = true) (h0 : c ≠ '0') :
    [c] ∈ digit19.matches' := by
  simp only [isDecimalDigit, decide_eq_true_eq, List.mem_cons, List.mem_singleton,
    List.not_mem_nil, or_false] at h
  simp only [digit19, RegularExpression.matches'_add, RegularExpression.matches'_char,
    Language.mem_add]
  rcases h with rfl | rfl | rfl | rfl | rfl | rfl | rfl | rfl | rfl | rfl
  · exact absurd rfl h0
  all_goals first
    | exact Or.inr (Set.mem_singleton _)
    | exact Or.inl (Or.inr (Set.mem_singleton _))
    | exact Or.inl (Or.inl (Or.inr (Set.mem_singleton _)))
    | exact Or.inl (Or.inl (Or.inl (Or.inr (Set.mem_singleton _))))
    | exact Or.inl (Or.inl (Or.inl (Or.inl (Or.inr (Set.mem_singleton _)))))
    | exact Or.inl (Or.inl (Or.inl (Or.inl (Or.inl (Or.inr (Set.mem_singleton _))))))
    | exact Or.inl (Or.inl (Or.inl (Or.inl (Or.inl (Or.inl (Or.inr (Set.mem_singleton _)))))))
    | exact Or.inl (Or.inl (Or.inl (Or.inl (Or.inl (Or.inl (Or.inl (Or.inr (Set.mem_singleton _))))))))
    | exact Or.inl (Or.inl (Or.inl (Or.inl (Or.inl (Or.inl (Or.inl (Or.inl (Set.mem_singleton _))))))))

theorem digit09_mem (c : Char) (h : isDecimalDigit c = true) : [c] ∈ digit09.matches' := by
  simp only [digit09, RegularExpression.matches'_add, Language.mem_add]
  by_cases h0 : c = '0'
  · left; rw [h0, RegularExpression.matches'_char]; exact Set.mem_singleton _
  · exact Or.inr (digit19_mem c h h0)

theorem digits_star (ds : List Char) (h : ds.all isDecimalDigit = true) :
    ds ∈ (RegularExpression.star digit09).matches' := by
  rw [RegularExpression.matches'_star]
  induction ds with
  | nil => exact Language.nil_mem_kstar _
  | cons c ds ih =>
    simp only [List.all_cons, Bool.and_eq_true] at h
    rw [← Language.one_add_self_mul_kstar_eq_kstar, Language.mem_add]
    right
    show [c] ++ ds ∈ _
    exact Language.append_mem_mul (digit09_mem c h.1) (ih h.2)

theorem digits_plus (ds : List Char) (hne : ds ≠ []) (h : ds.all isDecimalDigit = true) :
    ds ∈ (plus1 digit09).matches' := by
  cases ds with
  | nil => exact absurd rfl hne
  | cons c ds =>
    simp only [List.all_cons, Bool.and_eq_true] at h
    rw [plus1, RegularExpression.matches'_mul]
    show [c] ++ ds ∈ _
    exact Language.append_mem_mul (digit09_mem c h.1) (digits_star ds h.2)


theorem dot_mem : ['.'] ∈ (RegularExpression.char '.').matches' := by
  rw [RegularExpression.matches'_char]; exact Set.mem_singleton _

theorem IPRegexp_mem (c : Char) (g1 g2 g3 g4 : List Char)
    (hc : isDecimalDigit c = true) (hc0 : c ≠ '0') (h1 : g1.all isDecimalDigit = true)
    (h2 : g2.all isDecimalDigit = true) (n2 : g2 ≠ [])
    (h3 : g3.all isDecimalDigit = true) (n3 : g3 ≠ [])
    (h4 : g4.all isDecimalDigit = true) (n4 : g4 ≠ []) :
    (c :: g1) ++ '.' :: (g2 ++ '.' :: (g3 ++ '.' :: g4)) ∈ IPRegexp.matches' := by
  have e : (c :: g1) ++ '.' :: (g2 ++ '.' :: (g3 ++ '.' :: g4)) =
      (((((([c] ++ g1) ++ ['.']) ++ g2) ++ ['.']) ++ g3) ++ ['.']) ++ g4 := by simp
  rw [e]
  simp only [IPRegexp, RegularExpression.matches'_mul]
  exact Language.append_mem_mul (Language.append_mem_mul (Language.append_mem_mul
    (Language.append_mem_mul (Language.append_mem_mul (Language.append_mem_mul
      (Language.append_mem_mul (digit19_mem c hc hc0) (digits_star g1 h1)) dot_mem)
      (digits_plus g2 n2 h2)) dot_mem) (digits_plus g3 n3 h3)) dot_mem) (digits_plus g4 n4 h4)

theorem MatchString_dotted_quad (host : String) (hq : isDottedQuad host = true)
    (hz : hasLeadingZero host = false) : MatchString IPRegexp host = true := by
  unfold isDottedQuad at hq
  simp only [Bool.and_eq_true, decide_eq_true_eq] at hq
  obtain ⟨hlen, hall⟩ := hq
  have hjoin := List.intercalate_splitOn host.data '.'
  cases hgs : host.data.splitOn '.' with
  | nil => rw [hgs] at hlen; simp at hlen
  | cons g1 t1 =>
    cases t1 with
    | nil => rw [hgs] at hlen; simp at hlen
    | cons g2 t2 =>
      cases t2 with
      | nil => rw [hgs] at hlen; simp at hlen
      | cons g3 t3 =>
        cases t3 with
        | nil => rw [hgs] at hlen; simp at hlen
        | cons g4 t4 =>
          cases t4 with
          | cons g5 t5 => rw [hgs] at hlen; simp at hlen
          | nil =>
            rw [hgs] at hall hjoin
            simp only [List.all_cons, List.all_nil, Bool.and_true, Bool.and_eq_true,
              decide_eq_true_eq] at hall
            obtain ⟨⟨n1, h1⟩, ⟨n2, h2⟩, ⟨n3, h3⟩, ⟨n4, h4⟩⟩ := hall
            have hd : host.data = g1 ++ '.' :: (g2 ++ '.' :: (g3 ++ '.' :: g4)) := by
              rw [← hjoin]; simp [List.intercalate]
            cases g1 with
            | nil => exact absurd rfl n1
            | cons c g1 =>
              simp only [List.all_cons, Bool.and_eq_true] at h1
              have hc0 : c ≠ '0' := by
                intro h0
                simp [hasLeadingZero, hd, h0] at hz
              have hm := IPRegexp_mem c g1 g2 g3 g4 h1.1 hc0 h1.2 h2 n2 h3 n3 h4 n4
              have := MatchString_of_mem IPRegexp [] _ [] hm
              have e : host = ⟨[] ++ (c :: g1 ++ '.' :: (g2 ++ '.' :: (g3 ++ '.' :: g4))) ++ []⟩ := by
                apply String.ext; simp [hd]
              rw [e]; exact this

theorem initial_rmatch (s : List Char) :
    ∀ r : RegularExpression Char, matchesSomeInitial r s = true →
      ∃ a b, s = a ++ b ∧ r.rmatch a = true := by
  induction s with
  | nil =>
    intro r h
    exact ⟨[], [], rfl, by simpa [matchesSomeInitial, RegularExpression.rmatch] using h⟩
  | cons c s ih =>
    intro r h
    simp only [matchesSomeInitial, Bool.or_eq_true] at h
    rcases h with h | h
    · exact ⟨[], c :: s, rfl, by simpa [RegularExpression.rmatch] using h⟩
    · obtain ⟨a, b, e, hm⟩ := ih _ h
      exact ⟨c :: a, b, by rw [e]; rfl, by simpa [RegularExpression.rmatch] using hm⟩

theorem digit19_shape (x : List Char) (h : x ∈ digit19.matches') :
    ∃ c, x = [c] ∧ c ≠ '0' ∧ c ≠ '.' := by
  simp only [digit19, RegularExpression.matches'_add, RegularExpression.matches'_char,
    Language.mem_add] at h
  rcases h with (((((((h | h) | h) | h) | h) | h) | h) | h) | h <;>
    · have := Set.mem_singleton_iff.1 h
      subst this
      exact ⟨_, rfl, by decide, by decide⟩

theorem dot_shape (x : List Char) (h : x ∈ (RegularExpression.char '.').matches') : x = ['.'] := by
  rw [RegularExpression.matches'_char] at h
  exact Set.mem_singleton_iff.1 h

theorem IPRegexp_shape (m : List Char) (h : m ∈ IPRegexp.matches') :
    ∃ c rest, m = c :: rest ∧ c ≠ '0' ∧ c ≠ '.' ∧ 3 ≤ m.count '.' := by
  simp only [IPRegexp, RegularExpression.matches'_mul] at h
  obtain ⟨x7, h7, g4, _, rfl⟩ := Language.mem_mul.1 h
  obtain ⟨x6, h6, d3, hd3, rfl⟩ := Language.mem_mul.1 h7
  obtain ⟨x5, h5, g3, _, rfl⟩ := Language.mem_mul.1 h6
  obtain ⟨x4, h4, d2, hd2, rfl⟩ := Language.mem_mul.1 h5
  obtain ⟨x3, h3, g2, _, rfl⟩ := Language.mem_mul.1 h4
  obtain ⟨x2, h2, d1, hd1, rfl⟩ := Language.mem_mul.1 h3
  obtain ⟨x1, h1, g1, _, rfl⟩ := Language.mem_mul.1 h2
  obtain ⟨c, rfl, hc0, hcd⟩ := digit19_shape x1 h1
  rw [dot_shape d1 hd1, dot_shape d2 hd2, dot_shape d3 hd3]
  refine ⟨c, g1 ++ ['.'] ++ g2 ++ ['.'] ++ g3 ++ ['.'] ++ g4, by simp, hc0, hcd, ?_⟩
  simp only [List.count_append, List.count_singleton_self]
  omega

theorem count_dot_digits (g : List Char) (h : g.all isDecimalDigit = true) : g.count '.' = 0 := by
  rw [List.count_eq_zero]
  intro hm
  have := List.all_eq_true.1 h '.' hm
  exact absurd this (by decide)

theorem MatchString_zero_quad (host : String) (hq : isDottedQuad host = true)
    (hz : firstGroupZero host = true) : MatchString IPRegexp host = false := by
  unfold isDottedQuad at hq
  simp only [Bool.and_eq_true, decide_eq_true_eq] at hq
  obtain ⟨hlen, hall⟩ := hq
  have hjoin := List.intercalate_splitOn host.data '.'
  unfold firstGroupZero at hz
  cases hgs : host.data.splitOn '.' with
  | nil => rw [hgs] at hlen; simp at hlen
  | cons g1 t1 =>
    cases t1 with
    | nil => rw [hgs] at hlen; simp at hlen
    | cons g2 t2 =>
      cases t2 with
      | nil => rw [hgs] at hlen; simp at hlen
      | cons g3 t3 =>
        cases t3 with
        | nil => rw [hgs] at hlen; simp at hlen
        | cons g4 t4 =>
          cases t4 with
          | cons g5 t5 => rw [hgs] at hlen; simp at hlen
          | nil =>
            rw [hgs] at hall hjoin hz
            simp only [List.all_cons, List.all_nil, Bool.and_true, Bool.and_eq_true,
              decide_eq_true_eq] at hall
            obtain ⟨_, ⟨_, h2⟩, ⟨_, h3⟩, ⟨_, h4⟩⟩ := hall
            have hd : host.data = g1 ++ '.' :: (g2 ++ '.' :: (g3 ++ '.' :: g4)) := by
              rw [← hjoin]; simp [List.intercalate]
            have hzero : ∀ x ∈ g1, x = '0' := by
              intro x hx
              have := List.all_eq_true.1 hz x hx
              simpa using this
            have hcnt : (g2 ++ '.' :: (g3 ++ '.' :: g4)).count '.' = 2 := by
              simp only [List.count_append, List.count_cons_self, count_dot_digits g2 h2,
                count_dot_digits g3 h3, count_dot_digits g4 h4]
            cases hms : MatchString IPRegexp host with
            | false => rfl
            | true =>
              exfalso
              unfold MatchString at hms
              rw [List.any_eq_true] at hms
              obtain ⟨t, ht, hmt⟩ := hms
              rw [List.mem_tails] at ht
              obtain ⟨pre, hpre⟩ := ht
              obtain ⟨a, b, hab, hr⟩ := initial_rmatch t _ hmt
              obtain ⟨c, rest, hc, hc0, hcd, hcount⟩ :=
                IPRegexp_shape a ((RegularExpression.rmatch_iff_matches' _ _).1 hr)
              have ht3 : 3 ≤ t.count '.' := by
                rw [hab, List.count_append]; omega
              have hthead : t = c :: (rest ++ b) := by rw [hab, hc]; rfl
              rw [hd] at hpre
              rcases List.append_eq_append_iff.1 hpre with ⟨a1, h1, h2⟩ | ⟨c1, h1, h2⟩
              · cases a1 with
                | nil =>
                  rw [hthead] at h2
                  simp only [List.nil_append, List.cons.injEq] at h2
                  exact hcd h2.1
                | cons x a2 =>
                  rw [hthead] at h2
                  simp only [List.cons_append, List.cons.injEq] at h2
                  exact hc0 (by rw [h2.1]; exact hzero x (by rw [h1]; simp))
              · cases c1 with
                | nil =>
                  rw [hthead] at h2
                  simp only [List.nil_append, List.cons.injEq] at h2
                  exact hcd h2.1.symm
                | cons x c2 =>
                  simp only [List.cons_append, List.cons.injEq] at h2
                  have := congrArg (List.count '.') h2.2
                  rw [hcnt, List.count_append] at this
                  omega

/-- C8 (the claim as stated fails): the dotted quad `0.0.0.0` is expanded with the namespace. -/
theorem getHost_zero_quad :
    isDottedQuad (hostSegment "0.0.0.0") = true ∧
      getHost "0.0.0.0" "ns1" = ["0.0.0.0.ns1.svc.cluster.local:2181"] := by
  decide

/-- C8 (amended): for every uri whose host segment is a dotted quad and every
namespace, `getHost` returns exactly one endpoint: the host verbatim followed by
`:` and the port when the host does not begin with the digit 0, and the host
expanded with the namespace, like a service name, when its first group is made
of zeros only. -/
theorem getHost_dotted_quad (uri ns : String) (hq : isDottedQuad (hostSegment uri) = true) :
    (hasLeadingZero (hostSegment uri) = false →
        getHost uri ns = [hostSegment uri ++ ":" ++ portSegment uri]) ∧
      (firstGroupZero (hostSegment uri) = true →
        getHost uri ns =
          [hostSegment uri ++ "." ++ ns ++ ".svc.cluster.local:" ++ portSegment uri]) := by
  refine ⟨fun hz => ?_, fun hz => ?_⟩
  · rw [getHost_eq, if_pos (MatchString_dotted_quad _ hq hz)]
  · rw [getHost_eq, MatchString_zero_quad _ hq hz]
    simp

/-- Witness of C8: the spec's example `10.0.0.5` is taken verbatim, the dotted
quad `000.1.2.3` is expanded. -/
theorem getHost_dotted_quad_witness :
    isDottedQuad (hostSegment "10.0.0.5") = true ∧
      getHost "10.0.0.5" "ns1" = ["10.0.0.5:2181"] ∧
      isDottedQuad (hostSegment "000.1.2.3:2181") = true ∧
      getHost "000.1.2.3:2181" "ns1" = ["000.1.2.3.ns1.svc.cluster.local:2181"] :=
  ⟨by decide, by
    rw [(getHost_dotted_quad "10.0.0.5" "ns1" (by decide)).1 (by decide)]; decide,
    by decide, by
    rw [(getHost_dotted_quad "000.1.2.3:2181" "ns1" (by decide)).2 (by decide)]; decide⟩

/-- C9 (the code departs from the claim): the expression is searched for anywhere
in the host, so a host that merely contains an address-like run, such as
`1.2.3.4.5` or `zk10.0.0.5.example.com`, is not a dotted quad and yet is
taken verbatim; the spec's two examples come out as the claim says. -/
theorem getHost_embedded_address :
    isDottedQuad (hostSegment "1.2.3.4.5") = false ∧
      getHost "1.2.3.4.5" "ns1" = ["1.2.3.4.5:2181"] ∧
      isDottedQuad (hostSegment "zk10.0.0.5.example.com:2181") = false ∧
      getHost "zk10.0.0.5.example.com:2181" "ns1" = ["zk10.0.0.5.example.com:2181"] ∧
      getHost "zookeeper-client:2181" "ns1" = ["zookeeper-client.ns1.svc.cluster.local:2181"] ∧
      getHost "myhost" "ns1" = ["myhost.ns1.svc.cluster.local:2181"] := by
  refine ⟨by decide, by decide, by decide, by decide, by decide, by decide⟩

/-! ### Paths -/

theorem splitLastSlash_none (b : List Char) (h : '/' ∉ b) : splitLastSlash b = none := by
  induction b with
  | nil => rfl
  | cons c cs ih =>
    simp only [List.mem_cons, not_or] at h
    have hc : c ≠ '/' := fun e => h.1 e.symm
    simp [splitLastSlash, ih h.2, hc]

theorem splitLastSlash_append_some (x s p b : List Char) (h : splitLastSlash s = some (p, b)) :
    splitLastSlash (x ++ s) = some (x ++ p, b) := by
  induction x with
  | nil => simpa using h
  | cons c cs ih => simp [splitLastSlash, ih]

theorem splitLastSlash_append (p b : List Char) (h : '/' ∉ b) :
    splitLastSlash (p ++ '/' :: b) = some (p, b) := by
  have h0 : splitLastSlash ('/' :: b) = some ([], b) := by
    simp [splitLastSlash, splitLastSlash_none b h]
  simpa using splitLastSlash_append_some p _ _ _ h0

theorem splitLastSlash_some_of_mem (l : List Char) (h : '/' ∈ l) :
    ∃ p b, splitLastSlash l = some (p, b) := by
  cases hs : splitLastSlash l with
  | some pb => exact ⟨pb.1, pb.2, rfl⟩
  | none =>
    exfalso
    induction l with
    | nil => simp at h
    | cons d ds ihd =>
      simp only [splitLastSlash] at hs
      cases hds : splitLastSlash ds with
      | some _ => simp [hds] at hs
      | none =>
        rw [hds] at hs
        simp only [List.mem_cons] at h
        rcases h with h | h
        · simp [← h] at hs
        · exact ihd h hds

theorem splitLastSlash_spec (q : List Char) :
    ∀ p b, splitLastSlash q = some (p, b) → q = p ++ '/' :: b ∧ '/' ∉ b := by
  induction q with
  | nil => intro p b h; simp [splitLastSlash] at h
  | cons c cs ih =>
    intro p b h
    simp only [splitLastSlash] at h
    cases hs : splitLastSlash cs with
    | some pb =>
      obtain ⟨p1, b1⟩ := pb
      rw [hs] at h
      simp only [Option.some.injEq, Prod.mk.injEq] at h
      obtain ⟨rfl, rfl⟩ := h
      obtain ⟨e, hb⟩ := ih p1 b1 hs
      exact ⟨by rw [e]; simp, hb⟩
    | none =>
      rw [hs] at h
      by_cases hc : c = '/'
      · rw [if_pos hc] at h
        simp only [Option.some.injEq, Prod.mk.injEq] at h
        obtain ⟨hp, hb⟩ := h
        subst hp hb
        refine ⟨by simp [hc], fun hm => ?_⟩
        obtain ⟨p1, b1, e⟩ := splitLastSlash_some_of_mem _ hm
        rw [hs] at e
        cases e
      · rw [if_neg hc] at h
        cases h

theorem parentPath_data (q p : String) (h : parentPath q = some p) :
    q.data = p.data ++ '/' :: (baseName q).data ∧ '/' ∉ (baseName q).data := by
  unfold parentPath at h
  unfold baseName
  cases hs : splitLastSlash q.data with
  | none => simp [hs] at h
  | some pb =>
    obtain ⟨p1, b1⟩ := pb
    simp only [hs, Option.map_some', Option.some.injEq] at h
    subst h
    exact splitLastSlash_spec q.data p1 b1 hs

theorem parentPath_child (q p : String) (h : parentPath q = some p) :
    p ++ "/" ++ baseName q = q := by
  apply String.ext
  rw [(parentPath_data q p h).1]
  simp [String.data_append]

theorem depth_child (q p : String) (h : parentPath q = some p) : depth q = depth p + 1 := by
  unfold depth
  obtain ⟨e, hb⟩ := parentPath_data q p h
  rw [e, List.count_append, List.count_cons_self, List.count_eq_zero_of_not_mem hb]

theorem depth_descendant (root q : String) (h : isDescendant root q) : depth root < depth q := by
  obtain ⟨r, hr⟩ := h
  unfold depth
  rw [← hr]
  simp [List.count_append]

theorem inSubtree_child (root q p : String) (h : parentPath q = some p)
    (hp : inSubtree root p) : isDescendant root q := by
  obtain ⟨e, _⟩ := parentPath_data q p h
  unfold isDescendant
  rcases hp with hp | ⟨r, hr⟩
  · subst hp
    exact ⟨(baseName q).data, by rw [e]; simp⟩
  · exact ⟨r ++ '/' :: (baseName q).data, by rw [e, ← hr]; simp⟩

theorem descendant_parent (root q : String) (h : isDescendant root q) :
    ∃ p, parentPath q = some p ∧ inSubtree root p := by
  obtain ⟨r, hr⟩ := h
  by_cases hs : '/' ∈ r
  · obtain ⟨p1, b1, e⟩ := splitLastSlash_some_of_mem r hs
    have := splitLastSlash_append_some (root.data ++ ['/']) r p1 b1 e
    refine ⟨⟨root.data ++ ['/'] ++ p1⟩, ?_, Or.inr ⟨p1, rfl⟩⟩
    unfold parentPath
    rw [← hr, this]; rfl
  · have := splitLastSlash_append root.data r hs
    refine ⟨root, ?_, Or.inl rfl⟩
    unfold parentPath
    rw [← hr]
    simp only [List.append_assoc, List.singleton_append]
    rw [this]; rfl

/-! ### Breadth-first enumeration -/

theorem node?_isSome (t : DataTree) (p : String) : (t.node? p).isSome ↔ p ∈ t.paths := by
  unfold DataTree.node? DataTree.paths
  simp only [Option.isSome_map', List.find?_isSome, List.mem_map, decide_eq_true_eq]

theorem node?_none (t : DataTree) (p : String) : t.node? p = none ↔ p ∉ t.paths := by
  rw [← node?_isSome]; cases t.node? p <;> simp

theorem childPaths_map (t : DataTree) (h : String) :
    ((t.childPaths h).map baseName).map (fun child => h ++ "/" ++ child) = t.childPaths h := by
  rw [List.map_map]
  conv_rhs => rw [← List.map_id (t.childPaths h)]
  apply List.map_congr_left
  intro k hk
  unfold DataTree.childPaths at hk
  simp only [List.mem_filter, decide_eq_true_eq] at hk
  simpa using parentPath_child k h hk.2

theorem mem_childPaths (t : DataTree) (h k : String) :
    k ∈ t.childPaths h ↔ k ∈ t.paths ∧ parentPath k = some h := by
  unfold DataTree.childPaths
  simp

theorem bfsInv_init (t : DataTree) (root : String) (hr : root ∈ t.paths) :
    BfsInv t root [] [root] where
  head := rfl
  nodup := by simp
  sound := by intro x hx; simp at hx; subst hx; exact ⟨hr, Or.inl rfl⟩
  sorted := by simp
  near := by intro x hx h hh; simp at hx hh; subst hx hh; omega
  closed := by intro d hd; simp at hd
  parent := by intro x hx; simp at hx; exact Or.inl hx

theorem bfsInv_step (t : DataTree) (hn : t.paths.Nodup) (root : String)
    (done rest : List String) (h : String) (inv : BfsInv t root done (h :: rest)) :
    BfsInv t root (done ++ [h]) (rest ++ t.childPaths h) := by
  have e : (done ++ [h]) ++ (rest ++ t.childPaths h) = (done ++ h :: rest) ++ t.childPaths h := by
    simp
  have hh : h ∈ done ++ h :: rest := by simp
  have hroot : root ∈ done ++ h :: rest := by
    have := inv.head
    cases hd : done ++ h :: rest with
    | nil => simp at hd
    | cons a l => rw [hd] at this; simp at this; simp [this]
  have hdepth_root : depth root ≤ depth h := by
    have := inv.head
    cases hd : done with
    | nil => rw [hd] at this; simp at this; rw [this]
    | cons a l =>
      rw [hd] at this; simp at this; subst this
      have hs := inv.sorted
      rw [hd] at hs
      simp only [List.cons_append, List.pairwise_cons] at hs
      exact hs.1 h (by simp)
  have hkid : ∀ k ∈ t.childPaths h, k ∈ t.paths ∧ parentPath k = some h ∧ depth k = depth h + 1 :=
    fun k hk => by
      rw [mem_childPaths] at hk
      exact ⟨hk.1, hk.2, depth_child k h hk.2⟩
  have hfresh : ∀ k ∈ t.childPaths h, k ∉ done ++ h :: rest := by
    intro k hk hmem
    obtain ⟨_, hpk, hdk⟩ := hkid k hk
    rcases inv.parent k hmem with hk0 | ⟨d, hd, hpd⟩
    · rw [hk0] at hdk; omega
    · rw [hpk] at hpd
      simp only [Option.some.injEq] at hpd
      subst hpd
      have := inv.nodup
      rw [List.nodup_append] at this
      exact this.2.2 hd (by simp)
  constructor
  · rw [e, List.head?_append_of_ne_nil _ (by simp)]; exact inv.head
  · rw [e, List.nodup_append]
    refine ⟨inv.nodup, ?_, ?_⟩
    · unfold DataTree.childPaths; exact hn.filter _
    · intro x hx hx2; exact hfresh x hx2 hx
  · rw [e]
    intro x hx
    rw [List.mem_append] at hx
    rcases hx with hx | hx
    · exact inv.sound x hx
    · obtain ⟨h1, h2, _⟩ := hkid x hx
      exact ⟨h1, Or.inr (inSubtree_child root x h h2 (inv.sound h hh).2)⟩
  · rw [e, List.pairwise_append]
    refine ⟨inv.sorted, ?_, ?_⟩
    · rw [List.pairwise_iff_forall_sublist]
      intro a b hab
      have ha := hab.subset (List.mem_cons_self _ _)
      have hb := hab.subset (List.mem_cons_of_mem _ (List.mem_singleton_self _))
      rw [(hkid a ha).2.2, (hkid b hb).2.2]
    · intro a ha b hb
      rw [(hkid b hb).2.2]
      exact inv.near a ha h (by simp)
  · rw [e]
    intro x hx y hy
    rw [List.mem_append] at hx hy
    rcases hx with hx | hx <;> rcases hy with hy | hy
    · exact inv.near x hx y (by simp [hy])
    · rw [(hkid y hy).2.2]
      have := inv.near x hx h (by simp)
      omega
    · rw [(hkid x hx).2.2]
      have hs := inv.sorted
      rw [List.pairwise_append] at hs
      have : depth h ≤ depth y := by
        have := hs.2.1
        simp only [List.pairwise_cons] at this
        exact this.1 y hy
      omega
    · rw [(hkid x hx).2.2, (hkid y hy).2.2]; omega
  · rw [e]
    intro d hd k hk hpk
    rw [List.mem_append, List.mem_singleton] at hd
    rcases hd with hd | hd
    · exact List.mem_append_left _ (inv.closed d hd k hk hpk)
    · subst hd
      exact List.mem_append_right _ ((mem_childPaths t d k).2 ⟨hk, hpk⟩)
  · rw [e]
    intro x hx
    rw [List.mem_append] at hx
    rcases hx with hx | hx
    · rcases inv.parent x hx with h0 | ⟨d, hd, hpd⟩
      · exact Or.inl h0
      · exact Or.inr ⟨d, List.mem_append_left _ hd, hpd⟩
    · exact Or.inr ⟨h, by simp, (hkid x hx).2.1⟩

theorem subtree_induction (t : DataTree) (hwf : t.wellFormed) (root : String)
    (hne : root ≠ "") (P : String → Prop) (h0 : root ∈ t.paths → P root)
    (hstep : ∀ p q, p ∈ t.paths → q ∈ t.paths → inSubtree root p → parentPath q = some p →
      P p → P q) :
    ∀ q ∈ t.paths, inSubtree root q → P q := by
  have key : ∀ n : Nat, ∀ q : String, q.data.length ≤ n → q ∈ t.paths → inSubtree root q →
      P q := by
    intro n
    induction n with
    | zero =>
      intro q hlen hq hsub
      rcases hsub with hsub | hsub
      · rw [hsub] at hq ⊢; exact h0 hq
      · obtain ⟨r, hr⟩ := hsub
        rw [← hr] at hlen; simp at hlen
    | succ n ih =>
      intro q hlen hq hsub
      rcases hsub with hsub | hsub
      · rw [hsub] at hq ⊢; exact h0 hq
      · obtain ⟨p, hp, hps⟩ := descendant_parent root q hsub
        have hpm : p ∈ t.paths := by
          rcases hwf.2.1 q hq with hnone | htop | ⟨p1, hp1, e1⟩
          · rw [hnone] at hp; cases hp
          · exfalso
            rw [htop] at hp
            cases hp
            rcases hps with h1 | ⟨x, hx⟩
            · exact hne h1.symm
            · simp at hx
          · rw [e1] at hp; cases hp; exact hp1
        have hlt : p.data.length ≤ n := by
          have := (parentPath_data q p hp).1
          rw [this] at hlen
          simp only [List.length_append, List.length_cons] at hlen
          omega
        exact hstep p q hpm hq hps hp (ih p hlt hpm hps)
  intro q hq hsub
  exact key q.data.length q (Nat.le_refl _) hq hsub

theorem root_mem_of_subtree (t : DataTree) (hwf : t.wellFormed) (root q : String)
    (hne : root ≠ "") (hq : q ∈ t.paths) (hsub : inSubtree root q) : root ∈ t.paths :=
  subtree_induction t hwf root hne (fun _ => root ∈ t.paths) id (fun _ _ _ _ _ _ h => h) q hq
    hsub

theorem bfsInv_final (t : DataTree) (hwf : t.wellFormed) (root : String) (l : List String)
    (inv : BfsInv t root l []) : BfsOrder t root l := by
  have hhead : l.head? = some root := by simpa using inv.head
  have hroot : root ∈ l := List.mem_of_mem_head? hhead
  have hne : root ≠ "" :=
    valid_ne_empty root (hwf.2.2 root (inv.sound root (by simpa using hroot)).1).1
  constructor
  · exact hhead
  · simpa using inv.nodup
  · intro q
    constructor
    · intro hq; exact inv.sound q (by simpa using hq)
    · rintro ⟨hq, hsub⟩
      refine subtree_induction t hwf root hne (fun q => q ∈ l) (fun _ => hroot) ?_ q hq hsub
      intro p q _ hq2 _ hpq hp
      simpa using inv.closed p hp q hq2 hpq
  · simpa using inv.sorted
  · intro q hq hne
    rcases inv.parent q (by simpa using hq) with h0 | ⟨d, hd, hpd⟩
    · exact absurd h0 hne
    · exact ⟨d, hd, hpd⟩

theorem bfsInv_length (t : DataTree) (root : String) (done queue : List String)
    (inv : BfsInv t root done queue) : (done ++ queue).length ≤ t.paths.length :=
  (List.subperm_of_subset inv.nodup (fun x hx => (inv.sound x hx).1)).length_le

theorem call_fault {α : Type} (zk : Zk) (req : Request)
    (op : DataTree → Except ZkError α × DataTree) (e : ZkError)
    (hf : zk.faults.headD none = some e) (ho : zk.others.headD [] = []) :
    zk.call req op =
      (.error e, ⟨zk.tree, zk.trace ++ [(req, some e)], zk.faults.tail, zk.others.tail⟩) := by
  unfold Zk.call
  simp only [hf, ho, List.foldl_nil]

theorem Children_served (zk : Zk) (h : String) (hv : validatePath h false = none)
    (hf : zk.faults.headD none = none) (ho : zk.others.headD [] = []) (hm : h ∈ zk.tree.paths) :
    zk.Children h =
      (.ok ((zk.tree.childPaths h).map baseName),
        ⟨zk.tree, zk.trace ++ [(Request.Children h, none)], zk.faults.tail, zk.others.tail⟩) := by
  rw [Children_valid zk h hv, call_plain _ _ _ hf ho]
  rw [← node?_isSome] at hm
  unfold DataTree.children
  cases hn : zk.tree.node? h with
  | none => rw [hn] at hm; simp at hm
  | some n => simp [outcome]

theorem bfsLoop_spec (t : DataTree) (hn : t.paths.Nodup)
    (hval : ∀ q ∈ t.paths, validatePath q false = none) (root : String) :
    ∀ (fuel : Nat) (zk : Zk) (done queue : List String), zk.tree = t → zk.alone →
      BfsInv t root done queue → t.paths.length < fuel + done.length →
      ∃ l e zk1, bfsLoop fuel zk queue (done ++ queue) = some (l, e, zk1) ∧
        zk1.tree = t ∧ zk1.alone ∧ (zk.noFaults → e = none) ∧
        (e = none → BfsInv t root l [] ∧ ∃ s, l = done ++ s ∧
          zk1.trace = zk.trace ++ s.map (fun p => (Request.Children p, none)) ∧
          zk1.faults = zk.faults.drop s.length) := by
  intro fuel
  induction fuel with
  | zero =>
    intro zk done queue _ _ inv hlt
    have := bfsInv_length t root done queue inv
    simp at this hlt
    omega
  | succ fuel ih =>
    intro zk done queue ht ho inv hlt
    cases queue with
    | nil =>
      refine ⟨done ++ [], none, zk, rfl, ht, ho, fun _ => rfl, fun _ => ⟨?_, [], rfl, ?_, ?_⟩⟩
      · simpa using inv
      · simp
      · simp
    | cons h rest =>
      have ho0 := others_head _ ho
      have hm : h ∈ zk.tree.paths := by rw [ht]; exact (inv.sound h (by simp)).1
      have hv : validatePath h false = none := hval h (inv.sound h (by simp)).1
      cases hf : zk.faults.headD none with
      | some e =>
        refine ⟨done ++ h :: rest, some e,
          ⟨zk.tree, zk.trace ++ [(Request.Children h, some e)], zk.faults.tail, zk.others.tail⟩,
          ?_, ht, others_tail _ ho, ?_, ?_⟩
        · simp only [bfsLoop, Children_valid zk h hv, call_fault _ _ _ e hf ho0]
        · intro hnf
          rw [faults_head _ hnf] at hf
          cases hf
        · intro h0; cases h0
      | none =>
        have hstep := bfsInv_step t hn root done rest h inv
        have hlt2 : t.paths.length < fuel + (done ++ [h]).length := by
          simp; omega
        obtain ⟨l, e, zk1, hrun, ht1, ho1, hnf1, hok⟩ :=
          ih ⟨zk.tree, zk.trace ++ [(Request.Children h, none)], zk.faults.tail, zk.others.tail⟩
            (done ++ [h]) (rest ++ t.childPaths h) ht (others_tail _ ho) hstep hlt2
        refine ⟨l, e, zk1, ?_, ht1, ho1, ?_, ?_⟩
        · simp only [bfsLoop, Children_served zk h hv hf ho0 hm, childPaths_map]
          rw [← ht] at hrun
          simpa using hrun
        · intro hnf
          exact hnf1 (faults_tail _ hnf)
        · intro he
          obtain ⟨hinv, s, hl, htr, hfa⟩ := hok he
          refine ⟨hinv, h :: s, by simp [hl], by simp [htr], ?_⟩
          rw [hfa]
          simp

/-! ### Deletion -/

theorem occursBefore_of_depth (l : List String) (a b : String)
    (hs : l.Pairwise (fun x y => depth x ≤ depth y)) (ha : a ∈ l) (hb : b ∈ l)
    (hlt : depth a < depth b) : occursBefore l a b := by
  induction l with
  | nil => simp at ha
  | cons c l ih =>
    rw [List.pairwise_cons] at hs
    rw [List.mem_cons] at ha hb
    rcases ha with ha | ha
    · rcases hb with hb | hb
      · rw [ha, hb] at hlt; omega
      · obtain ⟨l2, l3, e⟩ := List.append_of_mem hb
        exact ⟨[], l2, l3, by rw [ha, e]; rfl⟩
    · rcases hb with hb | hb
      · have := hs.1 a ha
        rw [hb] at hlt; omega
      · obtain ⟨l1, l2, l3, e⟩ := ih hs.2 ha hb
        exact ⟨c :: l1, l2, l3, by rw [e]; rfl⟩

theorem occursBefore_reverse (l : List String) (a b : String) (h : occursBefore l a b) :
    occursBefore l.reverse b a := by
  obtain ⟨l1, l2, l3, e⟩ := h
  exact ⟨l3.reverse, l2.reverse, l1.reverse, by rw [e]; simp⟩

theorem mem_paths_filter (t : DataTree) (r : List String) (q : String) :
    q ∈ DataTree.paths (t.filter (fun kv => kv.1 ∉ r)) ↔ q ∈ t.paths ∧ q ∉ r := by
  unfold DataTree.paths
  simp only [List.mem_map, List.mem_filter, decide_eq_true_eq]
  constructor
  · rintro ⟨x, ⟨hx, hr⟩, e⟩; subst e; exact ⟨⟨x, hx, rfl⟩, hr⟩
  · rintro ⟨⟨x, hx, e⟩, hr⟩; subst e; exact ⟨x, ⟨hx, hr⟩, rfl⟩

theorem filter_ne_eq (t : DataTree) (x : String) :
    t.filter (fun kv => kv.1 ≠ x) = t.filter (fun kv => kv.1 ∉ [x]) := by
  apply List.filter_congr
  intro kv _
  simp

theorem Delete_served (zk : Zk) (x : String) (hv : validatePath x false = none)
    (hf : zk.faults.headD none = none) (ho : zk.others.headD [] = []) (hm : x ∈ zk.tree.paths)
    (hleaf : ∀ k ∈ zk.tree.paths, parentPath k ≠ some x) :
    zk.Delete x (-1) =
      (.ok (), ⟨zk.tree.filter (fun kv => kv.1 ≠ x),
        zk.trace ++ [(Request.Delete x (-1), none)], zk.faults.tail, zk.others.tail⟩) := by
  rw [Delete_valid zk x _ hv, call_plain _ _ _ hf ho]
  rw [← node?_isSome] at hm
  have hc : zk.tree.childPaths x = [] := by
    unfold DataTree.childPaths
    rw [List.filter_eq_nil_iff]
    intro k hk
    simpa using hleaf k hk
  unfold DataTree.delete
  cases hn : zk.tree.node? x with
  | none => rw [hn] at hm; simp at hm
  | some n => simp [versionOk, hc, outcome]

theorem deleteLoop_spec :
    ∀ (r : List String) (zk : Zk), zk.alone → r.Nodup → (∀ x ∈ r, x ∈ zk.tree.paths) →
      (∀ x ∈ r, validatePath x false = none) →
      r.Pairwise (fun a b => depth b ≤ depth a) →
      (∀ k ∈ zk.tree.paths, ∀ x ∈ r, parentPath k = some x → k ∈ r) →
      (deleteLoop zk r).2.alone ∧ (zk.noFaults → (deleteLoop zk r).1 = none) ∧
        ((deleteLoop zk r).1 = none →
          (deleteLoop zk r).2.tree = zk.tree.filter (fun kv => kv.1 ∉ r) ∧
          (deleteLoop zk r).2.trace =
            zk.trace ++ r.map (fun p => (Request.Delete p (-1), none)) ∧
          (deleteLoop zk r).2.faults = zk.faults.drop r.length) := by
  intro r
  induction r with
  | nil =>
    intro zk ho _ _ _ _ _
    simp [deleteLoop, ho]
  | cons x xs ih =>
    intro zk ho hnd hmem hval hsorted hclosed
    have ho0 := others_head _ ho
    rw [List.nodup_cons] at hnd
    rw [List.pairwise_cons] at hsorted
    cases hf : zk.faults.headD none with
    | some e =>
      have hrun : deleteLoop zk (x :: xs) =
          (some ("failed to delete znode (" ++ x ++ "): " ++ e.Error),
            ⟨zk.tree, zk.trace ++ [(Request.Delete x (-1), some e)], zk.faults.tail,
              zk.others.tail⟩) := by
        simp only [deleteLoop, Delete_valid zk x _ (hval x (by simp)), call_fault _ _ _ e hf ho0]
      rw [hrun]
      refine ⟨others_tail _ ho, ?_, ?_⟩
      · intro hnf
        rw [faults_head _ hnf] at hf
        cases hf
      · intro h0; cases h0
    | none =>
      have hleaf : ∀ k ∈ zk.tree.paths, parentPath k ≠ some x := by
        intro k hk hpk
        have hd := depth_child k x hpk
        have := hclosed k hk x (by simp) hpk
        rw [List.mem_cons] at this
        rcases this with h1 | h1
        · rw [h1] at hd; omega
        · have := hsorted.1 k h1
          omega
      have hrun : deleteLoop zk (x :: xs) =
          deleteLoop ⟨zk.tree.filter (fun kv => kv.1 ≠ x),
            zk.trace ++ [(Request.Delete x (-1), none)], zk.faults.tail, zk.others.tail⟩ xs := by
        simp only [deleteLoop,
          Delete_served zk x (hval x (by simp)) hf ho0 (hmem x (by simp)) hleaf]
      rw [hrun]
      have hmem2 : ∀ y ∈ xs, y ∈ DataTree.paths (zk.tree.filter (fun kv => kv.1 ≠ x)) := by
        intro y hy
        rw [filter_ne_eq, mem_paths_filter]
        refine ⟨hmem y (by simp [hy]), ?_⟩
        simp only [List.mem_singleton]
        rintro rfl
        exact hnd.1 hy
      have hclosed2 : ∀ k ∈ DataTree.paths (zk.tree.filter (fun kv => kv.1 ≠ x)), ∀ y ∈ xs,
          parentPath k = some y → k ∈ xs := by
        intro k hk y hy hpk
        rw [filter_ne_eq, mem_paths_filter] at hk
        have := hclosed k hk.1 y (by simp [hy]) hpk
        rw [List.mem_cons] at this
        rcases this with h1 | h1
        · exact absurd h1 (by simpa using hk.2)
        · exact h1
      obtain ⟨h1, h2, h3⟩ := ih
        ⟨zk.tree.filter (fun kv => kv.1 ≠ x), zk.trace ++ [(Request.Delete x (-1), none)],
          zk.faults.tail, zk.others.tail⟩ (others_tail _ ho) hnd.2 hmem2
          (fun y hy => hval y (by simp [hy])) hsorted.2 hclosed2
      refine ⟨h1, fun hnf => h2 (faults_tail _ hnf), fun hnone => ?_⟩
      obtain ⟨e1, e2, e3⟩ := h3 hnone
      refine ⟨?_, ?_, ?_⟩
      · rw [e1, List.filter_filter]
        apply List.filter_congr
        intro kv _
        simp [Bool.and_comm]
      · rw [e2]; simp
      · rw [e3]; simp

theorem Exists_served (zk : Zk) (p : String) (hv : validatePath p false = none)
    (hf : zk.faults.headD none = none) (ho : zk.others.headD [] = []) :
    ∃ st, zk.Exists p =
      (.ok (decide (p ∈ zk.tree.paths), st),
        ⟨zk.tree, zk.trace ++ [(Request.Exists p, none)], zk.faults.tail, zk.others.tail⟩) := by
  rw [Exists_valid zk p hv, call_plain _ _ _ hf ho]
  unfold DataTree.exists
  cases hn : zk.tree.node? p with
  | none =>
    have := (node?_none zk.tree p).1 hn
    exact ⟨⟨0⟩, by simp [outcome, this]⟩
  | some n =>
    have : p ∈ zk.tree.paths := by rw [← node?_isSome, hn]; rfl
    exact ⟨⟨n.version⟩, by simp [outcome, this]⟩

theorem ListSubTreeBFS_spec (zk : Zk) (root : String) (fuel : Nat)
    (hwf : zk.tree.wellFormed) (hroot : root ∈ zk.tree.paths) (ho : zk.alone)
    (hfuel : zk.tree.paths.length < fuel) :
    ∃ l e zk1, ListSubTreeBFS fuel zk root = some (l, e, zk1) ∧
      zk1.tree = zk.tree ∧ zk1.alone ∧ (zk.noFaults → e = none) ∧
      (e = none → BfsOrder zk.tree root l ∧
        zk1.trace = zk.trace ++ l.map (fun p => (Request.Children p, none)) ∧
        zk1.faults = zk.faults.drop l.length) := by
  obtain ⟨l, e, zk1, hrun, ht, ho1, hnf, hok⟩ :=
    bfsLoop_spec zk.tree hwf.1 (fun q hq => (hwf.2.2 q hq).1) root fuel zk [] [root] rfl ho
      (bfsInv_init zk.tree root hroot)
      (by simpa using hfuel)
  refine ⟨l, e, zk1, by simpa [ListSubTreeBFS] using hrun, ht, ho1, hnf, fun he => ?_⟩
  obtain ⟨hinv, s, hl, htr, hfa⟩ := hok he
  simp only [List.nil_append] at hl
  subst hl
  exact ⟨bfsInv_final zk.tree hwf root _ hinv, htr, hfa⟩

theorem DeleteAllZnodes_spec (zk : Zk) (uri ns name : String) (fuel : Nat)
    (hwf : zk.tree.wellFormed) (ho : zk.alone) (hfuel : zk.tree.paths.length < fuel) :
    ∃ r, DeleteAllZnodes fuel zk uri ns name = some r ∧ r.2.alone ∧
      (zk.noFaults → validatePath (getRoot name) false = none → r.1 = none) ∧
      (r.1 = none →
        (getRoot name ∉ zk.tree.paths ∧
          r.2 = ⟨zk.tree, zk.trace ++ [(Request.Exists (getRoot name), none)], zk.faults.tail,
            zk.others.tail⟩) ∨
        (getRoot name ∈ zk.tree.paths ∧ ∃ l zk1,
          ListSubTreeBFS fuel
            ⟨zk.tree, zk.trace ++ [(Request.Exists (getRoot name), none)], zk.faults.tail,
              zk.others.tail⟩ (getRoot name) = some (l, none, zk1) ∧
          BfsOrder zk.tree (getRoot name) l ∧
          r.2.tree = zk.tree.filter (fun kv => kv.1 ∉ l) ∧
          r.2.trace = zk.trace ++ [(Request.Exists (getRoot name), none)] ++
            l.map (fun p => (Request.Children p, none)) ++
            l.reverse.map (fun p => (Request.Delete p (-1), none)))) := by
  have ho0 := others_head _ ho
  rcases validatePath_cases (getRoot name) with hv | hv
  swap
  · refine ⟨(some ("failed to check if zookeeper path exists: " ++
        ZkError.ErrInvalidPath.Error),
      ⟨zk.tree, zk.trace ++ [(Request.Exists (getRoot name), some .ErrInvalidPath)], zk.faults,
        zk.others⟩), ?_, ho, ?_, ?_⟩
    · simp only [DeleteAllZnodes, connect_getHost, Exists_refused zk _ hv]
    · intro _ hv2
      rw [hv2] at hv
      cases hv
    · intro h0; cases h0
  cases hf : zk.faults.headD none with
  | some e =>
    refine ⟨(some ("failed to check if zookeeper path exists: " ++ e.Error),
      ⟨zk.tree, zk.trace ++ [(Request.Exists (getRoot name), some e)], zk.faults.tail,
        zk.others.tail⟩), ?_, others_tail _ ho, ?_, ?_⟩
    · simp only [DeleteAllZnodes, connect_getHost, Exists_valid zk _ hv,
        call_fault _ _ _ e hf ho0]
    · intro hnf _
      rw [faults_head _ hnf] at hf
      cases hf
    · intro h0; cases h0
  | none =>
    obtain ⟨st, hex⟩ := Exists_served zk (getRoot name) hv hf ho0
    by_cases hroot : getRoot name ∈ zk.tree.paths
    · obtain ⟨l, e, zk1, hrun, ht, ho1, hnf, hok⟩ :=
        ListSubTreeBFS_spec
          ⟨zk.tree, zk.trace ++ [(Request.Exists (getRoot name), none)], zk.faults.tail,
            zk.others.tail⟩ (getRoot name) fuel hwf hroot (others_tail _ ho) hfuel
      cases e with
      | some err =>
        refine ⟨(some ("failed to construct BFS tree: " ++ err.Error), zk1), ?_, ho1, ?_, ?_⟩
        · simp only [DeleteAllZnodes, connect_getHost, hex, hroot, decide_True, if_true, hrun]
        · intro hnf0 _
          have := hnf (faults_tail _ hnf0)
          cases this
        · intro h0; cases h0
      | none =>
        obtain ⟨hbfs, htr, hfa⟩ := hok rfl
        have hdel := deleteLoop_spec l.reverse zk1 ho1 (List.nodup_reverse.2 hbfs.nodup)
          (fun x hx => by rw [ht]; exact ((hbfs.mem x).1 (List.mem_reverse.1 hx)).1)
          (fun x hx => (hwf.2.2 x ((hbfs.mem x).1 (List.mem_reverse.1 hx)).1).1)
          (List.pairwise_reverse.2 hbfs.sorted)
          (fun k hk x hx hpk => by
            rw [ht] at hk
            rw [List.mem_reverse] at hx ⊢
            exact (hbfs.mem k).2
              ⟨hk, Or.inr (inSubtree_child _ k x hpk ((hbfs.mem x).1 hx).2)⟩)
        refine ⟨deleteLoop zk1 l.reverse, ?_, hdel.1, ?_, ?_⟩
        · simp only [DeleteAllZnodes, connect_getHost, hex, hroot, decide_True, if_true, hrun]
        · intro hnf0 _
          apply hdel.2.1
          intro f hfm
          rw [hfa] at hfm
          exact faults_tail _ hnf0 f (List.mem_of_mem_drop hfm)
        · intro h0
          obtain ⟨e1, e2, _⟩ := hdel.2.2 h0
          refine Or.inr ⟨hroot, l, zk1, hrun, hbfs, ?_, ?_⟩
          · rw [e1, ht]
            apply List.filter_congr
            intro kv _
            simp
          · rw [e2, htr]
    · refine ⟨(none, ⟨zk.tree, zk.trace ++ [(Request.Exists (getRoot name), none)],
        zk.faults.tail, zk.others.tail⟩), ?_, others_tail _ ho, fun _ _ => rfl,
        fun _ => Or.inl ⟨hroot, rfl⟩⟩
      simp only [DeleteAllZnodes, connect_getHost, hex, hroot, decide_False]
      rfl

/-! ### The subtree eraser -/

theorem deletedPaths_append (a b : List (Request × Option ZkError)) :
    deletedPaths (a ++ b) = deletedPaths a ++ deletedPaths b := by
  simp [deletedPaths, List.filterMap_append]

theorem deletedPaths_children (l : List String) :
    deletedPaths (l.map (fun p => (Request.Children p, none))) = [] := by
  induction l with
  | nil => rfl
  | cons x xs _ => simp [deletedPaths, List.filterMap_cons]

theorem deletedPaths_deletes (l : List String) :
    deletedPaths (l.map (fun p => (Request.Delete p (-1), none))) = l := by
  induction l with
  | nil => rfl
  | cons x xs ih =>
    simp only [deletedPaths, List.map_cons, List.filterMap_cons] at ih ⊢
    rw [ih]

/-- C4: on a well-formed tree holding `root`, with every lookup served,
`ListSubTreeBFS` returns (any iteration bound above the number of nodes is
enough) the level-order enumeration of the subtree: the root first, exactly the
nodes of the subtree, each once, every other node after its parent and equal to
the parent's path, `/` and its own name, and never a node before one of smaller
depth; the tree is left as it was. -/
theorem ListSubTreeBFS_breadth_first (zk : Zk) (root : String) (fuel : Nat)
    (hwf : zk.tree.wellFormed) (hroot : root ∈ zk.tree.paths) (hf : zk.noFaults)
    (ho : zk.alone) (hfuel : zk.tree.paths.length < fuel) :
    ∃ l zk1, ListSubTreeBFS fuel zk root = some (l, none, zk1) ∧ zk1.tree = zk.tree ∧
      l.head? = some root ∧ l.Nodup ∧
      (∀ q, q ∈ l ↔ q ∈ zk.tree.paths ∧ inSubtree root q) ∧
      (∀ q ∈ l, q ≠ root →
        ∃ p, parentPath q = some p ∧ q = p ++ "/" ++ baseName q ∧ occursBefore l p q) ∧
      l.Pairwise (fun a b => depth a ≤ depth b) := by
  obtain ⟨l, e, zk1, hrun, ht, _, hnf, hok⟩ := ListSubTreeBFS_spec zk root fuel hwf hroot ho hfuel
  have he := hnf hf
  subst he
  obtain ⟨hbfs, _, _⟩ := hok rfl
  refine ⟨l, zk1, hrun, ht, hbfs.head, hbfs.nodup, hbfs.mem, ?_, hbfs.sorted⟩
  intro q hq hne
  obtain ⟨p, hp, hpq⟩ := hbfs.parent q hq hne
  refine ⟨p, hpq, (parentPath_child q p hpq).symm, ?_⟩
  exact occursBefore_of_depth l p q hbfs.sorted hp hq (by rw [depth_child q p hpq]; omega)

/-- Witness of C4: the enumeration of the subtree `root -> {a, b}`, `a -> {a1}`. -/
theorem ListSubTreeBFS_breadth_first_witness :
    exampleTree.wellFormed ∧
      (ListSubTreeBFS 8 (Zk.quiet exampleTree) "/pravega/c").map (fun r => (r.1, r.2.1)) =
        some (["/pravega/c", "/pravega/c/a", "/pravega/c/b", "/pravega/c/a/a1"], none) ∧
      ∃ l zk1, ListSubTreeBFS 8 (Zk.quiet exampleTree) "/pravega/c" = some (l, none, zk1) ∧
        l.head? = some "/pravega/c" ∧ l.Nodup :=
  have h := ListSubTreeBFS_breadth_first (Zk.quiet exampleTree) "/pravega/c" 8
    (by decide) (by decide) (by decide) (by decide) (by decide)
  ⟨by decide, by decide, h.elim fun l h1 => h1.elim fun zk1 h2 =>
    ⟨l, zk1, h2.1, h2.2.2.1, h2.2.2.2.1⟩⟩

/-- C2: on a well-formed tree holding the root, with every request served,
`DeleteAllZnodes` succeeds, the deletes it issues are exactly the enumeration
returned by `ListSubTreeBFS` read backwards, every one of them succeeds (so none
meets a node that still has children), every node of the subtree is deleted, and
a node is deleted only after each of its descendants. -/
theorem DeleteAllZnodes_order (zk : Zk) (uri ns name : String) (fuel : Nat)
    (hwf : zk.tree.wellFormed) (hroot : getRoot name ∈ zk.tree.paths) (hf : zk.noFaults)
    (ho : zk.alone) (hfuel : zk.tree.paths.length < fuel) :
    ∃ l zk1 zk2,
      ListSubTreeBFS fuel
        ⟨zk.tree, zk.trace ++ [(Request.Exists (getRoot name), none)], zk.faults.tail,
          zk.others.tail⟩ (getRoot name) = some (l, none, zk1) ∧
      DeleteAllZnodes fuel zk uri ns name = some (none, zk2) ∧
      zk2.trace = zk.trace ++ [(Request.Exists (getRoot name), none)] ++
        l.map (fun p => (Request.Children p, none)) ++
        l.reverse.map (fun p => (Request.Delete p (-1), none)) ∧
      deletedPaths zk2.trace = deletedPaths zk.trace ++ l.reverse ∧
      (∀ q, q ∈ l ↔ q ∈ zk.tree.paths ∧ inSubtree (getRoot name) q) ∧
      (∀ p q, p ∈ l → q ∈ l → isDescendant p q → occursBefore l.reverse q p) := by
  obtain ⟨r, hrun, _, hnf, hok⟩ := DeleteAllZnodes_spec zk uri ns name fuel hwf ho hfuel
  have h1 := hnf hf (hwf.2.2 _ hroot).1
  rcases hok h1 with ⟨habs, _⟩ | ⟨_, l, zk1, hbfsrun, hbfs, _, htr⟩
  · exact absurd hroot habs
  · refine ⟨l, zk1, r.2, hbfsrun, ?_, htr, ?_, hbfs.mem, ?_⟩
    · rw [hrun, ← h1]
    · rw [htr]
      simp only [deletedPaths_append, deletedPaths_children, deletedPaths_deletes]
      simp [deletedPaths]
    · intro p q hp hq hd
      exact occursBefore_reverse l p q
        (occursBefore_of_depth l p q hbfs.sorted hp hq (depth_descendant p q hd))

/-- Witness of C2: for the tree `root -> {a, b}`, `a -> {a1}` the deletes are
`a1`, `b`, `a`, `root`, in this order. -/
theorem DeleteAllZnodes_order_witness :
    exampleTree.wellFormed ∧
      (DeleteAllZnodes 8 (Zk.quiet exampleTree) "zookeeper-client:2181" "ns1" "c").map
          (fun r => (r.1, deletedPaths r.2.trace)) =
        some (none, ["/pravega/c/a/a1", "/pravega/c/b", "/pravega/c/a", "/pravega/c"]) ∧
      ∃ (l : List String) (zk2 : Zk),
        DeleteAllZnodes 8 (Zk.quiet exampleTree) "zookeeper-client:2181" "ns1" "c" =
          some (none, zk2) ∧
        deletedPaths zk2.trace = deletedPaths (Zk.quiet exampleTree).trace ++ l.reverse :=
  have h := DeleteAllZnodes_order (Zk.quiet exampleTree) "zookeeper-client:2181" "ns1" "c" 8
    (by decide) (by decide) (by decide) (by decide) (by decide)
  ⟨by decide, by decide, h.elim fun l h1 => h1.elim fun _ h2 => h2.elim fun zk2 h3 =>
    ⟨l, zk2, h3.2.1, h3.2.2.2.1⟩⟩

/-- C3: on a well-formed tree that no other client touches, `DeleteAllZnodes`
returns (any iteration bound above the number of nodes is enough), and whenever
it returns success the root path and every descendant path of it are absent from
the resulting tree. -/
theorem DeleteAllZnodes_complete (zk : Zk) (uri ns name : String) (fuel : Nat)
    (hwf : zk.tree.wellFormed) (ho : zk.alone) (hfuel : zk.tree.paths.length < fuel) :
    (∃ r, DeleteAllZnodes fuel zk uri ns name = some r) ∧
      ∀ zk1, DeleteAllZnodes fuel zk uri ns name = some (none, zk1) →
        ∀ q, inSubtree (getRoot name) q → q ∉ zk1.tree.paths ∧ zk1.tree.node? q = none := by
  obtain ⟨r, hrun, _, _, hok⟩ := DeleteAllZnodes_spec zk uri ns name fuel hwf ho hfuel
  refine ⟨⟨r, hrun⟩, ?_⟩
  intro zk1 hz q hq
  rw [hrun] at hz
  simp only [Option.some.injEq] at hz
  subst hz
  have key : q ∉ zk1.tree.paths := by
    rcases hok rfl with ⟨habs, he⟩ | ⟨_, l, _, _, hbfs, htree, _⟩
    · simp only at he
      intro hm
      rw [he] at hm
      exact habs (root_mem_of_subtree zk.tree hwf (getRoot name) q (getRoot_ne_empty name) hm hq)
    · simp only at htree
      rw [htree, mem_paths_filter]
      intro hm
      exact hm.2 ((hbfs.mem q).2 ⟨hm.1, hq⟩)
  exact ⟨key, (node?_none _ _).2 key⟩

/-- Witness of C3: erasing the cluster `c` of the example tree leaves
`/pravega` and the other cluster. -/
theorem DeleteAllZnodes_complete_witness :
    exampleTree.wellFormed ∧
      (DeleteAllZnodes 8 (Zk.quiet exampleTree) "zookeeper-client:2181" "ns1" "c").map
          (fun r => (r.1, r.2.tree.paths)) = some (none, ["/pravega", "/pravega/cc"]) ∧
      ∀ zk1, DeleteAllZnodes 8 (Zk.quiet exampleTree) "zookeeper-client:2181" "ns1" "c" =
          some (none, zk1) →
        ∀ q, inSubtree (getRoot "c") q → q ∉ zk1.tree.paths ∧ zk1.tree.node? q = none :=
  ⟨by decide, by decide,
    (DeleteAllZnodes_complete (Zk.quiet exampleTree) "zookeeper-client:2181" "ns1" "c" 8
      (by decide) (by decide) (by decide)).2⟩

/-! ### Failures, frame and termination of the subtree eraser -/

theorem call_trace {α : Type} (zk : Zk) (req : Request)
    (op : DataTree → Except ZkError α × DataTree) :
    (zk.call req op).2.trace = zk.trace ++ [(req, outcome (zk.call req op).1)] := by
  unfold Zk.call
  cases zk.faults.headD none with
  | some e => rfl
  | none => rfl

theorem Children_trace (zk : Zk) (p : String) :
    (zk.Children p).2.trace = zk.trace ++ [(Request.Children p, outcome (zk.Children p).1)] := by
  rcases validatePath_cases p with hv | hv
  · rw [Children_valid zk p hv]
    exact call_trace zk _ _
  · rw [Children_refused zk p hv]
    rfl

theorem bfsLoop_trace :
    ∀ (fuel : Nat) (zk : Zk) (queue tree l : List String) (e : Option ZkError) (zk1 : Zk),
      bfsLoop fuel zk queue tree = some (l, e, zk1) →
      ∃ tr, zk1.trace = zk.trace ++ tr ∧
        (∀ x ∈ tr, ∃ p o, x = (Request.Children p, o)) ∧
        (∀ err, e = some err → ∃ p, tr.getLast? = some (Request.Children p, some err)) := by
  intro fuel
  induction fuel with
  | zero => intro zk queue tree l e zk1 h; simp [bfsLoop] at h
  | succ fuel ih =>
    intro zk queue tree l e zk1 h
    cases queue with
    | nil =>
      simp only [bfsLoop, Option.some.injEq, Prod.mk.injEq] at h
      obtain ⟨_, he, hz⟩ := h
      subst he hz
      exact ⟨[], by simp, by simp, by simp⟩
    | cons node rest =>
      simp only [bfsLoop] at h
      have htr := Children_trace zk node
      generalize zk.Children node = res at h htr
      obtain ⟨r, zk2⟩ := res
      cases r with
      | error err =>
        simp only [Option.some.injEq, Prod.mk.injEq] at h
        obtain ⟨_, he, hz⟩ := h
        subst he hz
        refine ⟨[(Request.Children node, some err)], by simpa [outcome] using htr, ?_, ?_⟩
        · intro x hx
          simp only [List.mem_singleton] at hx
          exact ⟨node, some err, hx⟩
        · intro err2 he2
          simp only [Option.some.injEq] at he2
          subst he2
          exact ⟨node, rfl⟩
      | ok children =>
        simp only at h
        obtain ⟨tr, h1, h2, h3⟩ := ih zk2 _ _ l e zk1 h
        simp only [outcome] at htr
        refine ⟨(Request.Children node, none) :: tr, ?_, ?_, ?_⟩
        · rw [h1, htr]; simp
        · intro x hx
          rw [List.mem_cons] at hx
          rcases hx with hx | hx
          · exact ⟨node, none, hx⟩
          · exact h2 x hx
        · intro err he
          obtain ⟨p, hp⟩ := h3 err he
          refine ⟨p, ?_⟩
          cases tr with
          | nil => simp at hp
          | cons a tr2 => rw [List.getLast?_cons_cons]; exact hp

theorem deleteLoop_run :
    ∀ (r : List String) (zk : Zk), zk.alone → r.Nodup → (∀ x ∈ r, x ∈ zk.tree.paths) →
      (∀ x ∈ r, validatePath x false = none) →
      r.Pairwise (fun a b => depth b ≤ depth a) →
      (∀ k ∈ zk.tree.paths, ∀ x ∈ r, parentPath k = some x → k ∈ r) →
      ∃ gone rest, r = gone ++ rest ∧ (deleteLoop zk r).2.alone ∧
        (deleteLoop zk r).2.tree = zk.tree.filter (fun kv => kv.1 ∉ gone) ∧
        ((rest = [] ∧ (deleteLoop zk r).1 = none ∧
            (deleteLoop zk r).2.trace =
              zk.trace ++ gone.map (fun p => (Request.Delete p (-1), none))) ∨
          ∃ p e more, rest = p :: more ∧
            (deleteLoop zk r).1 = some ("failed to delete znode (" ++ p ++ "): " ++ e.Error) ∧
            (deleteLoop zk r).2.trace =
              zk.trace ++ gone.map (fun p => (Request.Delete p (-1), none)) ++
                [(Request.Delete p (-1), some e)]) := by
  intro r
  induction r with
  | nil =>
    intro zk ho _ _ _ _ _
    exact ⟨[], [], rfl, by simpa [deleteLoop] using ho, by simp [deleteLoop],
      Or.inl ⟨rfl, by simp [deleteLoop], by simp [deleteLoop]⟩⟩
  | cons x xs ih =>
    intro zk ho hnd hmem hval hsorted hclosed
    have ho0 := others_head _ ho
    rw [List.nodup_cons] at hnd
    rw [List.pairwise_cons] at hsorted
    cases hf : zk.faults.headD none with
    | some e =>
      have hrun : deleteLoop zk (x :: xs) =
          (some ("failed to delete znode (" ++ x ++ "): " ++ e.Error),
            ⟨zk.tree, zk.trace ++ [(Request.Delete x (-1), some e)], zk.faults.tail,
              zk.others.tail⟩) := by
        simp only [deleteLoop, Delete_valid zk x _ (hval x (by simp)), call_fault _ _ _ e hf ho0]
      rw [hrun]
      exact ⟨[], x :: xs, rfl, others_tail _ ho, by simp,
        Or.inr ⟨x, e, xs, rfl, rfl, by simp⟩⟩
    | none =>
      have hleaf : ∀ k ∈ zk.tree.paths, parentPath k ≠ some x := by
        intro k hk hpk
        have hd := depth_child k x hpk
        have := hclosed k hk x (by simp) hpk
        rw [List.mem_cons] at this
        rcases this with h1 | h1
        · rw [h1] at hd; omega
        · have := hsorted.1 k h1
          omega
      have hrun : deleteLoop zk (x :: xs) =
          deleteLoop ⟨zk.tree.filter (fun kv => kv.1 ≠ x),
            zk.trace ++ [(Request.Delete x (-1), none)], zk.faults.tail, zk.others.tail⟩ xs := by
        simp only [deleteLoop,
          Delete_served zk x (hval x (by simp)) hf ho0 (hmem x (by simp)) hleaf]
      rw [hrun]
      have hmem2 : ∀ y ∈ xs, y ∈ DataTree.paths (zk.tree.filter (fun kv => kv.1 ≠ x)) := by
        intro y hy
        rw [filter_ne_eq, mem_paths_filter]
        refine ⟨hmem y (by simp [hy]), ?_⟩
        simp only [List.mem_singleton]
        rintro rfl
        exact hnd.1 hy
      have hclosed2 : ∀ k ∈ DataTree.paths (zk.tree.filter (fun kv => kv.1 ≠ x)), ∀ y ∈ xs,
          parentPath k = some y → k ∈ xs := by
        intro k hk y hy hpk
        rw [filter_ne_eq, mem_paths_filter] at hk
        have := hclosed k hk.1 y (by simp [hy]) hpk
        rw [List.mem_cons] at this
        rcases this with h1 | h1
        · exact absurd h1 (by simpa using hk.2)
        · exact h1
      obtain ⟨gone, rest, hsplit, h1, h2, h3⟩ := ih
        ⟨zk.tree.filter (fun kv => kv.1 ≠ x), zk.trace ++ [(Request.Delete x (-1), none)],
          zk.faults.tail, zk.others.tail⟩ (others_tail _ ho) hnd.2 hmem2
          (fun y hy => hval y (by simp [hy])) hsorted.2 hclosed2
      refine ⟨x :: gone, rest, by rw [hsplit]; rfl, h1, ?_, ?_⟩
      · rw [h2, List.filter_filter]
        apply List.filter_congr
        intro kv _
        simp [Bool.and_comm]
      · rcases h3 with ⟨hr, hn, ht⟩ | ⟨p, e, more, hr, hn, ht⟩
        · exact Or.inl ⟨hr, hn, by rw [ht]; simp⟩
        · exact Or.inr ⟨p, e, more, hr, hn, by rw [ht]; simp⟩


theorem DeleteAllZnodes_cases (zk : Zk) (uri ns name : String) (fuel : Nat)
    (hwf : zk.tree.wellFormed) (ho : zk.alone) (hfuel : zk.tree.paths.length < fuel) :
    ∃ r, DeleteAllZnodes fuel zk uri ns name = some r ∧ r.2.alone ∧
      ((∃ e, r.1 = some ("failed to check if zookeeper path exists: " ++ e.Error) ∧
          r.2.tree = zk.tree ∧
          r.2.trace = zk.trace ++ [(Request.Exists (getRoot name), some e)]) ∨
        (getRoot name ∉ zk.tree.paths ∧
          r = (none, ⟨zk.tree, zk.trace ++ [(Request.Exists (getRoot name), none)],
            zk.faults.tail, zk.others.tail⟩)) ∨
        (getRoot name ∈ zk.tree.paths ∧ ∃ e tr p,
          r.1 = some ("failed to construct BFS tree: " ++ e.Error) ∧ r.2.tree = zk.tree ∧
          r.2.trace = zk.trace ++ [(Request.Exists (getRoot name), none)] ++ tr ∧
          (∀ x ∈ tr, ∃ q o, x = (Request.Children q, o)) ∧
          tr.getLast? = some (Request.Children p, some e)) ∨
        (getRoot name ∈ zk.tree.paths ∧ ∃ l zk1 before after,
          ListSubTreeBFS fuel
            ⟨zk.tree, zk.trace ++ [(Request.Exists (getRoot name), none)], zk.faults.tail,
              zk.others.tail⟩ (getRoot name) = some (l, none, zk1) ∧
          BfsOrder zk.tree (getRoot name) l ∧ l = before ++ after ∧
          r.2.tree = zk.tree.filter (fun kv => kv.1 ∉ after) ∧
          ((before = [] ∧ r.1 = none ∧
              r.2.trace = zk.trace ++ [(Request.Exists (getRoot name), none)] ++
                l.map (fun p => (Request.Children p, none)) ++
                l.reverse.map (fun p => (Request.Delete p (-1), none))) ∨
            ∃ p e pre, before = pre ++ [p] ∧
              r.1 = some ("failed to delete znode (" ++ p ++ "): " ++ e.Error) ∧
              r.2.trace = zk.trace ++ [(Request.Exists (getRoot name), none)] ++
                l.map (fun p => (Request.Children p, none)) ++
                after.reverse.map (fun p => (Request.Delete p (-1), none)) ++
                [(Request.Delete p (-1), some e)]))) := by
  have ho0 := others_head _ ho
  rcases validatePath_cases (getRoot name) with hv | hv
  swap
  · refine ⟨(some ("failed to check if zookeeper path exists: " ++
        ZkError.ErrInvalidPath.Error),
      ⟨zk.tree, zk.trace ++ [(Request.Exists (getRoot name), some .ErrInvalidPath)], zk.faults,
        zk.others⟩), ?_, ho, Or.inl ⟨.ErrInvalidPath, rfl, rfl, rfl⟩⟩
    simp only [DeleteAllZnodes, connect_getHost, Exists_refused zk _ hv]
  cases hf : zk.faults.headD none with
  | some e =>
    refine ⟨(some ("failed to check if zookeeper path exists: " ++ e.Error),
      ⟨zk.tree, zk.trace ++ [(Request.Exists (getRoot name), some e)], zk.faults.tail,
        zk.others.tail⟩), ?_, others_tail _ ho, Or.inl ⟨e, rfl, rfl, rfl⟩⟩
    simp only [DeleteAllZnodes, connect_getHost, Exists_valid zk _ hv, call_fault _ _ _ e hf ho0]
  | none =>
    obtain ⟨st, hex⟩ := Exists_served zk (getRoot name) hv hf ho0
    by_cases hroot : getRoot name ∈ zk.tree.paths
    · obtain ⟨l, e, zk1, hrun, ht, ho1, _, hok⟩ :=
        ListSubTreeBFS_spec
          ⟨zk.tree, zk.trace ++ [(Request.Exists (getRoot name), none)], zk.faults.tail,
            zk.others.tail⟩ (getRoot name) fuel hwf hroot (others_tail _ ho) hfuel
      cases e with
      | some err =>
        obtain ⟨tr, h1, h2, h3⟩ := bfsLoop_trace fuel _ _ _ l (some err) zk1 hrun
        obtain ⟨p, hp⟩ := h3 err rfl
        refine ⟨(some ("failed to construct BFS tree: " ++ err.Error), zk1), ?_, ho1,
          Or.inr (Or.inr (Or.inl ⟨hroot, err, tr, p, rfl, ht, h1, h2, hp⟩))⟩
        simp only [DeleteAllZnodes, connect_getHost, hex, hroot, decide_True, if_true, hrun]
      | none =>
        obtain ⟨hbfs, htr, _⟩ := hok rfl
        obtain ⟨gone, rest, hsplit, hal, htree, hres⟩ :=
          deleteLoop_run l.reverse zk1 ho1 (List.nodup_reverse.2 hbfs.nodup)
            (fun x hx => by rw [ht]; exact ((hbfs.mem x).1 (List.mem_reverse.1 hx)).1)
            (fun x hx => (hwf.2.2 x ((hbfs.mem x).1 (List.mem_reverse.1 hx)).1).1)
            (List.pairwise_reverse.2 hbfs.sorted)
            (fun k hk x hx hpk => by
              rw [ht] at hk
              rw [List.mem_reverse] at hx ⊢
              exact (hbfs.mem k).2
                ⟨hk, Or.inr (inSubtree_child _ k x hpk ((hbfs.mem x).1 hx).2)⟩)
        have hl : l = rest.reverse ++ gone.reverse := by
          have := congrArg List.reverse hsplit
          simpa using this
        refine ⟨deleteLoop zk1 l.reverse, ?_, hal,
          Or.inr (Or.inr (Or.inr ⟨hroot, l, zk1, rest.reverse, gone.reverse, hrun, hbfs, hl,
            ?_, ?_⟩))⟩
        · simp only [DeleteAllZnodes, connect_getHost, hex, hroot, decide_True, if_true, hrun]
        · rw [htree, ht]
          apply List.filter_congr
          intro kv _
          simp
        · rcases hres with ⟨hr, hn, htrace⟩ | ⟨p, e, more, hr, hn, htrace⟩
          · refine Or.inl ⟨by simp [hr], hn, ?_⟩
            rw [htrace, htr, hsplit, hr]
            simp
          · refine Or.inr ⟨p, e, more.reverse, by simp [hr], hn, ?_⟩
            rw [htrace, htr]
            simp
    · refine ⟨(none, ⟨zk.tree, zk.trace ++ [(Request.Exists (getRoot name), none)],
        zk.faults.tail, zk.others.tail⟩), ?_, others_tail _ ho, Or.inr (Or.inl ⟨hroot, rfl⟩)⟩
      simp only [DeleteAllZnodes, connect_getHost, hex, hroot, decide_False]
      rfl


theorem deletedPaths_of_children (tr : List (Request × Option ZkError))
    (h : ∀ x ∈ tr, ∃ q o, x = (Request.Children q, o)) : deletedPaths tr = [] := by
  induction tr with
  | nil => rfl
  | cons a tr ih =>
    obtain ⟨q, o, e⟩ := h a (by simp)
    have := ih (fun x hx => h x (by simp [hx]))
    simp only [deletedPaths] at this ⊢
    rw [List.filterMap_cons, e, this]

theorem drop_trace (a b : List (Request × Option ZkError)) : (a ++ b).drop a.length = b := by
  simp

/-- C14: when the root path does not exist (and the existence check is served:
the client accepts the root path, as it does for every cluster name the operator
passes, and the round trip does not fail), `DeleteAllZnodes` returns success
whatever the iteration bound, the only request it has issued is that existence
check - no children lookup, no delete - and the tree is the one it started
from. -/
theorem DeleteAllZnodes_root_absent (zk : Zk) (uri ns name : String) (fuel : Nat)
    (habs : zk.tree.node? (getRoot name) = none)
    (hvalid : validatePath (getRoot name) false = none)
    (hf : zk.faults.headD none = none) (ho : zk.others.headD [] = []) :
    DeleteAllZnodes fuel zk uri ns name =
        some (none, ⟨zk.tree, zk.trace ++ [(Request.Exists (getRoot name), none)],
          zk.faults.tail, zk.others.tail⟩) := by
  obtain ⟨st, hex⟩ := Exists_served zk (getRoot name) hvalid hf ho
  have hroot : getRoot name ∉ zk.tree.paths := (node?_none _ _).1 habs
  simp only [DeleteAllZnodes, connect_getHost, hex, hroot, decide_False]
  rfl

/-- Witness of C14: the example tree holds no cluster `zz`. -/
theorem DeleteAllZnodes_root_absent_witness :
    exampleTree.node? (getRoot "zz") = none ∧
      DeleteAllZnodes 0 (Zk.quiet exampleTree) "zookeeper-client:2181" "ns1" "zz" =
        some (none, ⟨exampleTree, [(Request.Exists (getRoot "zz"), none)], [], []⟩) :=
  ⟨by decide,
    DeleteAllZnodes_root_absent (Zk.quiet exampleTree) "zookeeper-client:2181" "ns1" "zz" 0
      (by decide) (by decide) (by decide) (by decide)⟩

theorem DeleteAllZnodes_failed_delete (zk : Zk) (uri ns name : String) (fuel : Nat)
    (msg : Option String) (zk2 : Zk) (p : String) (v : Int) (e : ZkError)
    (hwf : zk.tree.wellFormed) (ho : zk.alone) (hfuel : zk.tree.paths.length < fuel)
    (hrun : DeleteAllZnodes fuel zk uri ns name = some (msg, zk2))
    (hlast : zk2.trace.getLast? = some (Request.Delete p v, some e)) :
    msg = some ("failed to delete znode (" ++ p ++ "): " ++ e.Error) ∧
      ∃ l zk1 before after,
        ListSubTreeBFS fuel
          ⟨zk.tree, zk.trace ++ [(Request.Exists (getRoot name), none)], zk.faults.tail,
            zk.others.tail⟩ (getRoot name) = some (l, none, zk1) ∧
        BfsOrder zk.tree (getRoot name) l ∧
        l = before ++ p :: after ∧
        zk2.tree = zk.tree.filter (fun kv => kv.1 ∉ after) ∧
        zk2.trace = zk.trace ++ [(Request.Exists (getRoot name), none)] ++
          l.map (fun q => (Request.Children q, none)) ++
          after.reverse.map (fun q => (Request.Delete q (-1), none)) ++
          [(Request.Delete p (-1), some e)] := by
  obtain ⟨r, hr, _, hcases⟩ := DeleteAllZnodes_cases zk uri ns name fuel hwf ho hfuel
  rw [hr] at hrun
  simp only [Option.some.injEq] at hrun
  subst hrun
  rcases hcases with ⟨e1, _, _, htr⟩ | ⟨_, hr2⟩ | ⟨_, e1, tr, p1, _, _, htr, _, hl⟩ |
    ⟨_, l, zk1, before, after, hbfs, hord, hsplit, htree, hres⟩
  · simp only at htr hlast
    rw [htr, List.getLast?_concat] at hlast
    simp at hlast
  · simp only [Prod.mk.injEq] at hr2
    rw [hr2.2, List.getLast?_concat] at hlast
    simp at hlast
  · simp only at htr hlast
    rw [htr, List.getLast?_append, hl] at hlast
    simp at hlast
  · simp only at htree hlast ⊢
    rcases hres with ⟨hb, _, htr⟩ | ⟨p1, e1, pre, hb, hmsg, htr⟩
    · exfalso
      rw [htr, List.getLast?_append, List.getLast?_map, List.getLast?_reverse, hord.head] at hlast
      simp at hlast
    · rw [htr, List.getLast?_concat] at hlast
      simp only [Option.some.injEq, Prod.mk.injEq, Request.Delete.injEq] at hlast
      obtain ⟨⟨hp, _⟩, he⟩ := hlast
      subst hp he
      exact ⟨hmsg, l, zk1, pre, after, hbfs, hord, by rw [hsplit, hb]; simp, htree, htr⟩


/-- C11: on a well-formed tree that no other client touches, if the last request
of a `DeleteAllZnodes` call is a delete of `p` that failed with `e`, then the
enumeration had succeeded with a list `before ++ p :: after`, the call returned
the error naming `p`, the deletes it issued are those of `after` read backwards
followed by the failed one - nothing after it - and the resulting tree is the
original one without exactly the paths of `after`: no rollback. -/
theorem DeleteAllZnodes_delete_failure (zk : Zk) (uri ns name : String) (fuel : Nat)
    (msg : Option String) (zk2 : Zk) (p : String) (v : Int) (e : ZkError)
    (hwf : zk.tree.wellFormed) (ho : zk.alone) (hfuel : zk.tree.paths.length < fuel)
    (hrun : DeleteAllZnodes fuel zk uri ns name = some (msg, zk2))
    (hlast : zk2.trace.getLast? = some (Request.Delete p v, some e)) :
    msg = some ("failed to delete znode (" ++ p ++ "): " ++ e.Error) ∧
      ∃ l zk1 before after,
        ListSubTreeBFS fuel
          ⟨zk.tree, zk.trace ++ [(Request.Exists (getRoot name), none)], zk.faults.tail,
            zk.others.tail⟩ (getRoot name) = some (l, none, zk1) ∧
        l = before ++ p :: after ∧
        zk2.tree = zk.tree.filter (fun kv => kv.1 ∉ after) ∧
        (∀ q, q ∈ zk2.tree.paths ↔ q ∈ zk.tree.paths ∧ q ∉ after) ∧
        zk2.trace = zk.trace ++ [(Request.Exists (getRoot name), none)] ++
          l.map (fun q => (Request.Children q, none)) ++
          after.reverse.map (fun q => (Request.Delete q (-1), none)) ++
          [(Request.Delete p (-1), some e)] ∧
        deletedPaths (zk2.trace.drop zk.trace.length) = after.reverse ++ [p] := by
  obtain ⟨hmsg, l, zk1, before, after, hbfs, _, hsplit, htree, htr⟩ :=
    DeleteAllZnodes_failed_delete zk uri ns name fuel msg zk2 p v e hwf ho hfuel hrun hlast
  refine ⟨hmsg, l, zk1, before, after, hbfs, hsplit, htree, ?_, htr, ?_⟩
  · intro q
    rw [htree, mem_paths_filter]
  · rw [htr]
    simp only [List.append_assoc, drop_trace]
    simp only [deletedPaths_append, deletedPaths_children, deletedPaths_deletes]
    simp [deletedPaths]

/-- C12: on a well-formed tree that no other client touches, if a children lookup
of a `DeleteAllZnodes` call has failed, the call returns the enumeration error,
it has issued no delete, and the tree after the call is the tree before it. -/
theorem DeleteAllZnodes_lookup_failure (zk : Zk) (uri ns name : String) (fuel : Nat)
    (msg : Option String) (zk2 : Zk) (p : String) (e : ZkError)
    (hwf : zk.tree.wellFormed) (ho : zk.alone) (hfuel : zk.tree.paths.length < fuel)
    (hrun : DeleteAllZnodes fuel zk uri ns name = some (msg, zk2))
    (hfail : (Request.Children p, some e) ∈ zk2.trace.drop zk.trace.length) :
    (∃ err : ZkError, msg = some ("failed to construct BFS tree: " ++ err.Error)) ∧
      zk2.tree = zk.tree ∧ deletedPaths (zk2.trace.drop zk.trace.length) = [] := by
  obtain ⟨r, hr, _, hcases⟩ := DeleteAllZnodes_cases zk uri ns name fuel hwf ho hfuel
  rw [hr] at hrun
  simp only [Option.some.injEq] at hrun
  subst hrun
  rcases hcases with ⟨e1, _, _, htr⟩ | ⟨_, hr2⟩ | ⟨_, e1, tr, p1, hmsg, htree, htr, hall, _⟩ |
    ⟨_, l, zk1, before, after, _, _, _, _, hres⟩
  · simp only at htr hfail
    rw [htr, drop_trace] at hfail
    simp at hfail
  · simp only [Prod.mk.injEq] at hr2
    rw [hr2.2] at hfail
    simp at hfail
  · simp only at htr hfail htree hmsg ⊢
    refine ⟨⟨e1, hmsg⟩, htree, ?_⟩
    rw [htr, List.append_assoc, drop_trace, deletedPaths_append, deletedPaths_of_children tr hall]
    simp [deletedPaths]
  · exfalso
    rcases hres with ⟨_, _, htr⟩ | ⟨p1, e1, pre, _, _, htr⟩
    · rw [htr] at hfail
      simp only [List.append_assoc, drop_trace] at hfail
      simp at hfail
    · rw [htr] at hfail
      simp only [List.append_assoc, drop_trace] at hfail
      simp at hfail


theorem wellFormed_filter_suffix (t : DataTree) (root : String) (l before after : List String)
    (hwf : t.wellFormed) (hbfs : BfsOrder t root l) (hl : l = before ++ after) :
    DataTree.wellFormed (t.filter (fun kv => kv.1 ∉ after)) := by
  refine ⟨?_, ?_, ?_⟩
  · exact List.Nodup.sublist ((List.filter_sublist t).map Prod.fst) hwf.1
  rotate_left
  · intro q hq
    rw [mem_paths_filter] at hq
    exact hwf.2.2 q hq.1
  · intro q hq
    rw [mem_paths_filter] at hq
    rcases hwf.2.1 q hq.1 with hnone | htop | ⟨p, hp, hpq⟩
    · exact Or.inl hnone
    · exact Or.inr (Or.inl htop)
    · refine Or.inr (Or.inr ⟨p, ?_, hpq⟩)
      rw [mem_paths_filter]
      refine ⟨hp, fun hpa => ?_⟩
      have hpl : p ∈ l := by rw [hl]; exact List.mem_append_right _ hpa
      have hql : q ∈ l := (hbfs.mem q).2
        ⟨hq.1, Or.inr (inSubtree_child root q p hpq ((hbfs.mem p).1 hpl).2)⟩
      rw [hl, List.mem_append] at hql
      rcases hql with hqb | hqa
      · have hs := hbfs.sorted
        rw [hl, List.pairwise_append] at hs
        have := hs.2.2 q hqb p hpa
        have := depth_child q p hpq
        omega
      · exact hq.2 hqa

theorem DeleteAllZnodes_success_absent (zk : Zk) (uri ns name : String) (fuel : Nat)
    (hwf : zk.tree.wellFormed) (hv : validatePath (getRoot name) false = none) (ho : zk.alone)
    (hfuel : zk.tree.paths.length < fuel) :
    ∃ r, DeleteAllZnodes fuel zk uri ns name = some r ∧ (zk.noFaults → r.1 = none) ∧
      (r.1 = none → ∀ q, inSubtree (getRoot name) q → q ∉ r.2.tree.paths) := by
  obtain ⟨r, hrun, _, hnf, hok⟩ := DeleteAllZnodes_spec zk uri ns name fuel hwf ho hfuel
  refine ⟨r, hrun, fun h => hnf h hv, fun h0 q hq => ?_⟩
  rcases hok h0 with ⟨habs, he⟩ | ⟨_, l, _, _, hbfs, htree, _⟩
  · intro hm
    rw [he] at hm
    exact habs (root_mem_of_subtree zk.tree hwf (getRoot name) q (getRoot_ne_empty name) hm hq)
  · rw [htree, mem_paths_filter]
    intro hm
    exact hm.2 ((hbfs.mem q).2 ⟨hm.1, hq⟩)

/-- C13: on a well-formed tree that no other client touches, if a
`DeleteAllZnodes` call ends on a failed delete (it then returns an error), a
following call on the tree it left, in which no request fails, returns success
and leaves neither the root nor any descendant of it. -/
theorem DeleteAllZnodes_resumable (zk : Zk) (uri ns name : String) (fuel : Nat)
    (msg : Option String) (zk2 : Zk) (p : String) (v : Int) (e : ZkError) (zk3 : Zk)
    (hwf : zk.tree.wellFormed) (ho : zk.alone) (hfuel : zk.tree.paths.length < fuel)
    (hrun : DeleteAllZnodes fuel zk uri ns name = some (msg, zk2))
    (hlast : zk2.trace.getLast? = some (Request.Delete p v, some e))
    (htree : zk3.tree = zk2.tree) (hf3 : zk3.noFaults) (ho3 : zk3.alone) :
    msg ≠ none ∧ p ∈ zk2.tree.paths ∧
      ∃ zk4, DeleteAllZnodes fuel zk3 uri ns name = some (none, zk4) ∧
        ∀ q, inSubtree (getRoot name) q → q ∉ zk4.tree.paths := by
  obtain ⟨hmsg, l, zk1, before, after, _, hbfs, hsplit, ht2, _⟩ :=
    DeleteAllZnodes_failed_delete zk uri ns name fuel msg zk2 p v e hwf ho hfuel hrun hlast
  have hwf3 : zk3.tree.wellFormed := by
    rw [htree, ht2]
    exact wellFormed_filter_suffix zk.tree (getRoot name) l (before ++ [p]) after hwf hbfs
      (by rw [hsplit]; simp)
  have hfuel3 : zk3.tree.paths.length < fuel := by
    have : zk3.tree.paths.length ≤ zk.tree.paths.length := by
      rw [htree, ht2]
      exact ((List.filter_sublist zk.tree).map Prod.fst).length_le
    omega
  have hp : p ∈ zk2.tree.paths := by
    rw [ht2, mem_paths_filter]
    have hpl : p ∈ l := by rw [hsplit]; simp
    refine ⟨((hbfs.mem p).1 hpl).1, fun hpa => ?_⟩
    have hn := hbfs.nodup
    rw [hsplit, List.nodup_append] at hn
    exact (List.nodup_cons.1 hn.2.1).1 hpa
  have hv : validatePath (getRoot name) false = none :=
    (hwf.2.2 _ ((hbfs.mem _).1 (List.mem_of_mem_head? hbfs.head)).1).1
  obtain ⟨r, hr, hnf, hok⟩ :=
    DeleteAllZnodes_success_absent zk3 uri ns name fuel hwf3 hv ho3 hfuel3
  have h0 := hnf hf3
  refine ⟨by rw [hmsg]; simp, hp, r.2, ?_, hok h0⟩
  rw [hr, ← h0]


theorem DeleteAllZnodes_removes (zk : Zk) (uri ns name : String) (fuel : Nat)
    (hwf : zk.tree.wellFormed) (ho : zk.alone) (hfuel : zk.tree.paths.length < fuel) :
    ∃ (r : Option String × Zk) (gone : List String),
      DeleteAllZnodes fuel zk uri ns name = some r ∧
      (∀ x ∈ gone, inSubtree (getRoot name) x) ∧
      r.2.tree = zk.tree.filter (fun kv => kv.1 ∉ gone) := by
  obtain ⟨r, hr, _, hcases⟩ := DeleteAllZnodes_cases zk uri ns name fuel hwf ho hfuel
  rcases hcases with ⟨_, _, ht, _⟩ | ⟨_, hr2⟩ | ⟨_, _, _, _, _, ht, _⟩ |
    ⟨_, l, _, before, after, _, hord, hsplit, ht, _⟩
  · exact ⟨r, [], hr, by simp, by rw [ht]; simp⟩
  · exact ⟨r, [], hr, by simp, by rw [hr2]; simp⟩
  · exact ⟨r, [], hr, by simp, by rw [ht]; simp⟩
  · refine ⟨r, after, hr, fun x hx => ?_, ht⟩
    exact ((hord.mem x).1 (by rw [hsplit]; exact List.mem_append_right _ hx)).2

theorem node?_filter (t : DataTree) (gone : List String) (q : String) (hq : q ∉ gone) :
    DataTree.node? (t.filter (fun kv => kv.1 ∉ gone)) q = t.node? q := by
  unfold DataTree.node?
  rw [List.find?_filter]
  congr 2
  funext kv
  by_cases h : kv.1 = q
  · simp [h, hq]
  · simp [h]

theorem childPaths_filter (t : DataTree) (gone : List String) (q : String) :
    DataTree.childPaths (t.filter (fun kv => kv.1 ∉ gone)) q =
      (t.childPaths q).filter (fun k => k ∉ gone) := by
  unfold DataTree.childPaths DataTree.paths
  rw [show (fun kv : String × DataNode => decide (kv.1 ∉ gone)) =
    ((fun k => decide (k ∉ gone)) ∘ Prod.fst) from rfl, ← List.filter_map, List.filter_filter,
    List.filter_filter]
  apply List.filter_congr
  intro k _
  rw [Bool.and_comm]

theorem childPaths_outside (t : DataTree) (root : String) (gone : List String) (q : String)
    (hgone : ∀ x ∈ gone, inSubtree root x) (hq : ¬ inSubtree root q) :
    (t.childPaths q).filter (fun k => k ∉ gone) = t.childPaths q ∨
      (parentPath root = some q ∧
        (t.childPaths q).filter (fun k => k ∉ gone) =
          (t.childPaths q).filter (fun k => k ≠ root)) := by
  have key : ∀ k ∈ t.childPaths q, k ∈ gone → k = root := by
    intro k hk hkg
    rcases hgone k hkg with h | h
    · exact h
    · exfalso
      obtain ⟨p, hp, hps⟩ := descendant_parent root k h
      rw [((mem_childPaths t q k).1 hk).2] at hp
      simp only [Option.some.injEq] at hp
      rw [hp] at hq
      exact hq hps
  by_cases hr : root ∈ gone ∧ parentPath root = some q
  · right
    refine ⟨hr.2, ?_⟩
    apply List.filter_congr
    intro k hk
    by_cases hkr : k = root
    · simp [hkr, hr.1]
    · have : k ∉ gone := fun hkg => hkr (key k hk hkg)
      simp [hkr, this]
  · left
    rw [List.filter_eq_self]
    intro k hk
    simp only [decide_eq_true_eq]
    intro hkg
    have hkr := key k hk hkg
    subst hkr
    exact hr ⟨hkg, ((mem_childPaths t q k).1 hk).2⟩

theorem append_slash_inj (a b x y : List Char) (ha : '/' ∉ a) (hb : '/' ∉ b)
    (h : a ++ '/' :: x = b ++ '/' :: y) : a = b := by
  induction a generalizing b with
  | nil =>
    cases b with
    | nil => rfl
    | cons c b =>
      simp only [List.nil_append, List.cons_append, List.cons.injEq] at h
      exact absurd (by rw [← h.1]; simp : '/' ∈ c :: b) hb
  | cons c a ih =>
    cases b with
    | nil =>
      simp only [List.nil_append, List.cons_append, List.cons.injEq] at h
      exact absurd (by rw [h.1]; simp : '/' ∈ c :: a) ha
    | cons d b =>
      simp only [List.cons_append, List.cons.injEq] at h
      rw [h.1, ih b (fun hm => ha (List.mem_cons_of_mem _ hm))
        (fun hm => hb (List.mem_cons_of_mem _ hm)) h.2]

theorem getRoot_data (name : String) :
    (getRoot name).data = ['/', 'p', 'r', 'a', 'v', 'e', 'g', 'a', '/'] ++ name.data := by
  simp [getRoot, PravegaPath, String.data_append]

theorem validatePathLoop_plain (l : List Char) :
    ∀ last2 last : Char, last ≠ '/' → ¬ (last = '.' ∧ last2 = '/') →
      (∀ c ∈ l, c ≠ '/' ∧ forbiddenRune c = false) →
      validatePathLoop last2 last false l = true := by
  induction l with
  | nil => intro _ _ _ _ _; rfl
  | cons r rest ih =>
    intro last2 last h1 h2 hall
    have hr := hall r (by simp)
    have hrec := ih last r hr.1 (fun h => h1 h.2) (fun c hc => hall c (by simp [hc]))
    unfold validatePathLoop
    rw [hrec, if_neg hr.1]
    by_cases hd : r = '.'
    · rw [if_pos hd]
      by_cases hl : last = '.'
      · have : last2 ≠ '/' := fun h => h2 ⟨hl, h⟩
        simp [hl, this]
      · simp [hl, h1]
    · rw [if_neg hd]
      simp [hr.2]

/-- The client accepts the root path of every cluster name that is not empty,
does not start with `.` and holds no `/` and no forbidden code point. -/
theorem getRoot_accepted (name : String) (c : Char) (rest : List Char)
    (hname : name.data = c :: rest) (hdot : c ≠ '.')
    (hall : ∀ x ∈ name.data, x ≠ '/' ∧ forbiddenRune x = false) :
    validatePath (getRoot name) false = none := by
  have hc := hall c (by rw [hname]; simp)
  have hrest : ∀ x ∈ rest, x ≠ '/' ∧ forbiddenRune x = false :=
    fun x hx => hall x (by rw [hname]; simp [hx])
  have hloop := validatePathLoop_plain rest '/' c hc.1 (fun h => hdot h.1) hrest
  have hlast : (['p', 'r', 'a', 'v', 'e', 'g', 'a', '/'] ++ c :: rest).getLast? ≠ some '/' := by
    rw [List.getLast?_append_of_ne_nil _ (by simp)]
    intro h
    have hm := List.mem_of_getLast?_eq_some h
    exact (hall '/' (by rw [hname]; exact hm)).1 rfl
  have hd : (getRoot name).data = '/' :: (['p', 'r', 'a', 'v', 'e', 'g', 'a', '/'] ++ c :: rest) := by
    rw [getRoot_data, hname]; rfl
  unfold validatePath
  rw [hd]
  simp only [ne_eq, not_true_eq_false, if_false, Bool.not_false, Bool.true_and]
  have hloop2 : validatePathLoop '/' '/' true
      (['p', 'r', 'a', 'v', 'e', 'g', 'a', '/'] ++ c :: rest) = true := by
    simp only [List.cons_append, List.nil_append, validatePathLoop, hloop, Bool.and_true]
    simp [hc.1, hdot, hc.2, show forbiddenRune 'p' = false by decide,
      show forbiddenRune 'r' = false by decide, show forbiddenRune 'a' = false by decide,
      show forbiddenRune 'v' = false by decide, show forbiddenRune 'e' = false by decide,
      show forbiddenRune 'g' = false by decide]
  rw [if_neg (by simp), if_neg (by simpa using hlast), if_pos hloop2]

theorem other_cluster_outside (name other q : String) (hn : '/' ∉ name.data)
    (ho : '/' ∉ other.data) (hne : other ≠ name) (hq : inSubtree (getRoot other) q) :
    ¬ inSubtree (getRoot name) q := by
  intro hsub
  -- both subtrees force the text of `q` after "/pravega/"
  have h1 : ∃ x, q.data = ['/', 'p', 'r', 'a', 'v', 'e', 'g', 'a', '/'] ++ other.data ++ x ∧
      (x = [] ∨ ∃ y, x = '/' :: y) := by
    rcases hq with h | ⟨r, hr⟩
    · exact ⟨[], by rw [h, getRoot_data]; simp, Or.inl rfl⟩
    · exact ⟨'/' :: r, by rw [← hr, getRoot_data]; simp, Or.inr ⟨r, rfl⟩⟩
  have h2 : ∃ x, q.data = ['/', 'p', 'r', 'a', 'v', 'e', 'g', 'a', '/'] ++ name.data ++ x ∧
      (x = [] ∨ ∃ y, x = '/' :: y) := by
    rcases hsub with h | ⟨r, hr⟩
    · exact ⟨[], by rw [h, getRoot_data]; simp, Or.inl rfl⟩
    · exact ⟨'/' :: r, by rw [← hr, getRoot_data]; simp, Or.inr ⟨r, rfl⟩⟩
  obtain ⟨x1, e1, hx1⟩ := h1
  obtain ⟨x2, e2, hx2⟩ := h2
  rw [e1] at e2
  simp only [List.append_assoc, List.append_cancel_left_eq] at e2
  have hdata : other.data = name.data := by
    rcases hx1 with hx1 | ⟨y1, hx1⟩ <;> rcases hx2 with hx2 | ⟨y2, hx2⟩
    · simpa [hx1, hx2] using e2
    · exfalso
      rw [hx1, hx2, List.append_nil] at e2
      exact ho (by rw [e2]; simp)
    · exfalso
      rw [hx1, hx2, List.append_nil] at e2
      exact hn (by rw [← e2]; simp)
    · rw [hx1, hx2] at e2
      exact append_slash_inj _ _ _ _ ho hn e2
  exact hne (String.ext hdata)

/-- C20 (the claim as stated fails): `/pravega` is neither the root of cluster
`c` nor a descendant of it, and after a successful `DeleteAllZnodes` its
children are no longer the same: the deleted root has left them. -/
theorem DeleteAllZnodes_parent_children :
    ¬ inSubtree (getRoot "c") "/pravega" ∧
      exampleTree.childPaths "/pravega" = ["/pravega/c", "/pravega/cc"] ∧
      (DeleteAllZnodes 8 (Zk.quiet exampleTree) "zookeeper-client:2181" "ns1" "c").map
          (fun r => (r.1, r.2.tree.childPaths "/pravega")) = some (none, ["/pravega/cc"]) := by
  refine ⟨by decide, by decide, by decide⟩

/-- C20 (amended): on a well-formed tree that no other client touches, whatever
the outcome of `DeleteAllZnodes` (success or error), every path that is neither
the root nor a descendant of it keeps its node (payload and version), and keeps
its children, except that the root, once deleted, leaves the children of its
parent.  Every path of the subtree of another cluster lies outside (names
without `/`), so a cluster whose name merely extends `name` is untouched. -/
theorem DeleteAllZnodes_frame (zk : Zk) (uri ns name : String) (fuel : Nat)
    (hwf : zk.tree.wellFormed) (ho : zk.alone) (hfuel : zk.tree.paths.length < fuel) :
    ∃ r, DeleteAllZnodes fuel zk uri ns name = some r ∧
      (∀ q, ¬ inSubtree (getRoot name) q →
        r.2.tree.node? q = zk.tree.node? q ∧
        (r.2.tree.childPaths q = zk.tree.childPaths q ∨
          (parentPath (getRoot name) = some q ∧
            r.2.tree.childPaths q =
              (zk.tree.childPaths q).filter (fun k => k ≠ getRoot name)))) ∧
      (∀ other q, '/' ∉ name.data → '/' ∉ other.data → other ≠ name →
        inSubtree (getRoot other) q →
        r.2.tree.node? q = zk.tree.node? q ∧ r.2.tree.childPaths q = zk.tree.childPaths q) := by
  obtain ⟨r, gone, hr, hgone, ht⟩ := DeleteAllZnodes_removes zk uri ns name fuel hwf ho hfuel
  have hnode : ∀ q, ¬ inSubtree (getRoot name) q → r.2.tree.node? q = zk.tree.node? q := by
    intro q hq
    rw [ht]
    exact node?_filter _ _ _ (fun hg => hq (hgone q hg))
  refine ⟨r, hr, fun q hq => ⟨hnode q hq, ?_⟩, ?_⟩
  · rw [ht, childPaths_filter]
    exact childPaths_outside zk.tree (getRoot name) gone q hgone hq
  · intro other q hn hot hne hq
    have hout := other_cluster_outside name other q hn hot hne hq
    refine ⟨hnode q hout, ?_⟩
    rw [ht, childPaths_filter]
    rcases childPaths_outside zk.tree (getRoot name) gone q hgone hout with h | ⟨hp, _⟩
    · exact h
    · exfalso
      -- the parent of the root is "/pravega", which lies in no cluster's subtree
      have hpar : parentPath (getRoot name) = some "/pravega" := by
        unfold parentPath
        have : (getRoot name).data = "/pravega".data ++ '/' :: name.data := by
          rw [getRoot_data]; rfl
        rw [this, splitLastSlash_append _ _ hn]
        rfl
      rw [hpar] at hp
      simp only [Option.some.injEq] at hp
      rw [← hp] at hq
      rcases hq with h | ⟨x, hx⟩
      · have := congrArg String.data h
        rw [getRoot_data] at this
        simp at this
      · rw [getRoot_data] at hx
        simp at hx


theorem lookupsServed_children (l : List String) :
    lookupsServed (l.map (fun p => (Request.Children p, none))) = l.length := by
  unfold lookupsServed
  rw [List.countP_map, List.countP_eq_length]
  intro a _
  rfl

/-- Witness of C20: the sibling cluster `cc` keeps its node and its children. -/
theorem DeleteAllZnodes_frame_witness :
    exampleTree.wellFormed ∧
      ∃ r, DeleteAllZnodes 8 (Zk.quiet exampleTree) "zookeeper-client:2181" "ns1" "c" = some r ∧
        r.2.tree.node? "/pravega/cc" = exampleTree.node? "/pravega/cc" ∧
        r.2.tree.childPaths "/pravega/cc" = exampleTree.childPaths "/pravega/cc" :=
  have h := DeleteAllZnodes_frame (Zk.quiet exampleTree) "zookeeper-client:2181" "ns1" "c" 8
    (by decide) (by decide) (by decide)
  ⟨by decide, h.elim fun r hr =>
    ⟨r, hr.1, hr.2.2 "cc" "/pravega/cc" (by decide) (by decide) (by decide) (by decide)⟩⟩

/-- C19: on a well-formed tree, with every request served, `ListSubTreeBFS`
returns for every iteration bound above the number of nodes of the tree, and
the loop has then completed exactly as many iterations - children lookups
answered, each followed by the removal of the queue's front - as the subtree of
`root` has nodes (none when `root` does not exist: its lookup is refused).  The
root is any path text but the empty one, which names no node. -/
theorem ListSubTreeBFS_terminates (zk : Zk) (root : String) (fuel : Nat)
    (hwf : zk.tree.wellFormed) (hne : root ≠ "") (hf : zk.noFaults) (ho : zk.alone)
    (hfuel : zk.tree.paths.length < fuel) :
    ∃ l e zk1, ListSubTreeBFS fuel zk root = some (l, e, zk1) ∧
      lookupsServed (zk1.trace.drop zk.trace.length) =
        (zk.tree.paths.filter (fun q => inSubtree root q)).length ∧
      (root ∈ zk.tree.paths → e = none ∧
        l.length = (zk.tree.paths.filter (fun q => inSubtree root q)).length) := by
  by_cases hroot : root ∈ zk.tree.paths
  · obtain ⟨l, e, zk1, hrun, _, _, hnf, hok⟩ :=
      ListSubTreeBFS_spec zk root fuel hwf hroot ho hfuel
    have he := hnf hf
    obtain ⟨hbfs, htr, _⟩ := hok he
    have hlen : l.length = (zk.tree.paths.filter (fun q => inSubtree root q)).length := by
      apply List.Perm.length_eq
      rw [List.perm_ext_iff_of_nodup hbfs.nodup (hwf.1.filter _)]
      intro a
      rw [hbfs.mem a, List.mem_filter]
      simp
    refine ⟨l, e, zk1, hrun, ?_, fun _ => ⟨he, hlen⟩⟩
    rw [htr, drop_trace, lookupsServed_children, hlen]
  · have hempty : zk.tree.paths.filter (fun q => inSubtree root q) = [] := by
      rw [List.filter_eq_nil_iff]
      intro q hq
      simp only [decide_eq_true_eq]
      exact fun hs => hroot (root_mem_of_subtree zk.tree hwf root q hne hq hs)
    have hn : zk.tree.node? root = none := (node?_none _ _).2 hroot
    obtain ⟨f, hfuel2⟩ : ∃ f, fuel = f + 1 := ⟨fuel - 1, by omega⟩
    subst hfuel2
    rcases validatePath_cases root with hv | hv
    · refine ⟨[root], some .ErrNoNode,
        ⟨zk.tree, zk.trace ++ [(Request.Children root, some .ErrNoNode)], zk.faults.tail,
          zk.others.tail⟩, ?_, ?_, fun h => absurd h hroot⟩
      · simp only [ListSubTreeBFS, bfsLoop, Children_valid zk root hv,
          call_plain _ _ _ (faults_head _ hf) (others_head _ ho), DataTree.children, hn, outcome]
      · rw [hempty, drop_trace]
        rfl
    · refine ⟨[root], some .ErrInvalidPath,
        ⟨zk.tree, zk.trace ++ [(Request.Children root, some .ErrInvalidPath)], zk.faults,
          zk.others⟩, ?_, ?_, fun h => absurd h hroot⟩
      · simp only [ListSubTreeBFS, bfsLoop, Children_refused zk root hv]
      · rw [hempty, drop_trace]
        rfl

/-- Witness of C19: the enumeration of the example subtree ends after four
iterations, the number of its nodes. -/
theorem ListSubTreeBFS_terminates_witness :
    exampleTree.wellFormed ∧
      (exampleTree.paths.filter (fun q => inSubtree "/pravega/c" q)).length = 4 ∧
      ∃ l e zk1, ListSubTreeBFS 8 (Zk.quiet exampleTree) "/pravega/c" = some (l, e, zk1) ∧
        lookupsServed (zk1.trace.drop (Zk.quiet exampleTree).trace.length) =
          (exampleTree.paths.filter (fun q => inSubtree "/pravega/c" q)).length :=
  have h := ListSubTreeBFS_terminates (Zk.quiet exampleTree) "/pravega/c" 8
    (by decide) (by decide) (by decide) (by decide) (by decide)
  ⟨by decide, by decide, h.elim fun l h1 => h1.elim fun e h2 => h2.elim fun zk1 h3 =>
    ⟨l, e, zk1, h3.1, h3.2.1⟩⟩

/-- Witness of C12: the second children lookup of the example fails. -/
theorem DeleteAllZnodes_lookup_failure_witness :
    exampleTree.wellFormed ∧
      DeleteAllZnodes 8 exampleFailingLookup "zookeeper-client:2181" "ns1" "c" =
        some (some "failed to construct BFS tree: zk: connection closed",
          ⟨exampleTree,
            [(Request.Exists "/pravega/c", none), (Request.Children "/pravega/c", none),
              (Request.Children "/pravega/c/a", some .ErrConnectionClosed)], [], []⟩) ∧
      (⟨exampleTree,
        [(Request.Exists "/pravega/c", none), (Request.Children "/pravega/c", none),
          (Request.Children "/pravega/c/a", some .ErrConnectionClosed)], [], []⟩ : Zk).tree =
        exampleFailingLookup.tree :=
  have hrun : DeleteAllZnodes 8 exampleFailingLookup "zookeeper-client:2181" "ns1" "c" =
      some (some "failed to construct BFS tree: zk: connection closed",
        ⟨exampleTree,
          [(Request.Exists "/pravega/c", none), (Request.Children "/pravega/c", none),
            (Request.Children "/pravega/c/a", some .ErrConnectionClosed)], [], []⟩) := by rfl
  ⟨by decide, hrun,
    (DeleteAllZnodes_lookup_failure exampleFailingLookup "zookeeper-client:2181" "ns1" "c" 8
      _ _ "/pravega/c/a" .ErrConnectionClosed (by decide) (by decide) (by decide) hrun
      (by decide)).2.1⟩


theorem exampleFailingDelete_run :
    DeleteAllZnodes 8 exampleFailingDelete "zookeeper-client:2181" "ns1" "c" =
      some (some "failed to delete znode (/pravega/c/b): zk: connection closed",
        exampleAfterFailure) := by
  rfl

/-- Witness of C11: in the example the delete of `b` fails after `a1` was
deleted; `a` and the root are left. -/
theorem DeleteAllZnodes_delete_failure_witness :
    exampleTree.wellFormed ∧
      DeleteAllZnodes 8 exampleFailingDelete "zookeeper-client:2181" "ns1" "c" =
        some (some "failed to delete znode (/pravega/c/b): zk: connection closed",
          exampleAfterFailure) ∧
      exampleAfterFailure.tree.paths =
        ["/pravega", "/pravega/c", "/pravega/c/a", "/pravega/c/b", "/pravega/cc"] ∧
      some "failed to delete znode (/pravega/c/b): zk: connection closed" =
        some ("failed to delete znode (" ++ "/pravega/c/b" ++ "): " ++
          ZkError.ErrConnectionClosed.Error) :=
  ⟨by decide, exampleFailingDelete_run, by decide,
    (DeleteAllZnodes_delete_failure exampleFailingDelete "zookeeper-client:2181" "ns1" "c" 8
      _ exampleAfterFailure "/pravega/c/b" (-1) .ErrConnectionClosed
      (by decide) (by decide) (by decide) exampleFailingDelete_run (by decide)).1⟩

/-- Witness of C13: after the failed delete of `b`, a second call on the tree
left behind succeeds and clears the cluster `c`. -/
theorem DeleteAllZnodes_resumable_witness :
    exampleTree.wellFormed ∧
      (DeleteAllZnodes 8 (Zk.quiet exampleAfterFailure.tree) "zookeeper-client:2181" "ns1"
          "c").map (fun r => (r.1, r.2.tree.paths)) = some (none, ["/pravega", "/pravega/cc"]) ∧
      ∃ zk4, DeleteAllZnodes 8 (Zk.quiet exampleAfterFailure.tree) "zookeeper-client:2181" "ns1"
          "c" = some (none, zk4) ∧
        ∀ q, inSubtree (getRoot "c") q → q ∉ zk4.tree.paths :=
  ⟨by decide, by decide,
    (DeleteAllZnodes_resumable exampleFailingDelete "zookeeper-client:2181" "ns1" "c" 8
      _ exampleAfterFailure "/pravega/c/b" (-1) .ErrConnectionClosed
      (Zk.quiet exampleAfterFailure.tree)
      (by decide) (by decide) (by decide) exampleFailingDelete_run (by decide) rfl
      (by decide) (by decide)).2.2⟩

/-! ### Payload and position of the configuration node -/

theorem toDigitsCore_decimal :
    ∀ (fuel n : Nat) (ds : List Char), n < fuel →
      Nat.toDigitsCore 10 fuel n ds = decimalDigits n ++ ds := by
  intro fuel
  induction fuel with
  | zero => intro n ds h; omega
  | succ fuel ih =>
    intro n ds h
    rw [Nat.toDigitsCore, decimalDigits]
    by_cases h10 : n < 10
    · have h0 : n / 10 = 0 := by omega
      have hm : n % 10 = n := by omega
      simp [h0, hm, h10]
    · have h0 : n / 10 ≠ 0 := by omega
      simp only [h0, if_false, h10, dite_false]
      rw [ih (n / 10) _ (by omega)]
      simp

theorem Itoa_decimal (r : Int) : Itoa r = decimalText r := by
  cases r with
  | ofNat m =>
    have : ¬ ((Int.ofNat m) < 0) := by simp
    simp only [Itoa, decimalText, this, if_false, Int.natAbs_ofNat, Nat.repr, Nat.toDigits]
    rw [toDigitsCore_decimal _ _ _ (by omega)]
    simp [List.asString]
  | negSucc m =>
    have : (Int.negSucc m) < 0 := Int.negSucc_lt_zero m
    simp only [Itoa, decimalText, this, if_true, Int.natAbs_negSucc, Nat.repr, Nat.toDigits]
    rw [toDigitsCore_decimal _ _ _ (by omega)]
    simp [List.asString]

/-- C15 (the code departs from the claim): `Itoa` yields the decimal text of the
replica count, but the payload built from it is never written: for every world,
name and replica count, `CreateZnode` and `UpdateZnode` stop at the existence
check, which the client refuses (the path of `getZnode` starts with `//`, the
defect of C1), issue no create and no set request, and leave the tree as it
was.  On the example service the configuration node written for three replicas
still holds `CLUSTER_SIZE=3` after `UpdateZnode` for five, and `CreateZnode` for
five leaves the cluster `c` of the other example without a configuration
node. -/
theorem payload_never_written (zk : Zk) (uri ns name : String) (r : Int) :
    Itoa r = decimalText r ∧
      (CreateZnode zk uri ns name r).2.tree = zk.tree ∧
      writesIssued (CreateZnode zk uri ns name r).2.trace = writesIssued zk.trace ∧
      (UpdateZnode zk uri ns name r).2.tree = zk.tree ∧
      writesIssued (UpdateZnode zk uri ns name r).2.trace = writesIssued zk.trace ∧
      exampleConfigured.wellFormed ∧
      (UpdateZnode (Zk.quiet exampleConfigured) "zookeeper-client:2181" "ns1" "c"
          5).2.tree.node? "/pravega/c/bookkeeper/conf" = some ⟨"CLUSTER_SIZE=3", 0⟩ ∧
      (CreateZnode (Zk.quiet exampleTree) "zookeeper-client:2181" "ns1" "c"
          5).2.tree.paths = exampleTree.paths := by
  refine ⟨Itoa_decimal r, ?_, ?_, ?_, ?_, by decide, by decide, by decide⟩
  · rw [CreateZnode_refused]
  · rw [CreateZnode_refused, writesIssued_append]
    simp [writesIssued]
  · rw [UpdateZnode_refused]
  · rw [UpdateZnode_refused, writesIssued_append]
    simp [writesIssued]

/-- C16 (the code departs from the claim): the configuration path that
`getZnode` computes starts with `//`, so for no name is it the root path or a
path under it - `getRoot name ++ "/"` is not a prefix of it - and for every
name the client refuses it, so that no node is ever written at it. -/
theorem getZnode_outside_root :
    (∀ name : String, ¬ inSubtree (getRoot name) (getZnode name)) ∧
      ¬ ((getRoot "mycluster" ++ "/").data <+: (getZnode "mycluster").data) ∧
      ∀ name : String, validatePath (getZnode name) false = some .ErrInvalidPath := by
  refine ⟨fun name => ?_, by decide, getZnode_refused⟩
  have hz : (getZnode name).data =
      '/' :: '/' :: ("pravega/".data ++ name.data ++ "/bookkeeper/conf".data) := by
    simp [getZnode, getRoot, PravegaPath, String.data_append]
  rintro (h | ⟨x, hx⟩)
  · have := congrArg String.data h
    rw [hz, getRoot_data] at this
    simp at this
  · rw [hz, getRoot_data] at hx
    simp at hx

/-! ### Defaults of the cluster resource -/

theorem defaultZookeeperUri_keeps (st : SpecState) :
    (defaultZookeeperUri st).2.Version = st.2.Version ∧
      (defaultZookeeperUri st).2.Replicas = st.2.Replicas ∧
      (st.1 = true → (defaultZookeeperUri st).1 = true) := by
  unfold defaultZookeeperUri
  split <;> simp

theorem defaultImage_keeps (st : SpecState) :
    (defaultImage st).2.Version = st.2.Version ∧
      (defaultImage st).2.Replicas = st.2.Replicas ∧
      (st.1 = true → (defaultImage st).1 = true) := by
  unfold defaultImage
  cases hI : st.2.Image with
  | none => simp [hI]
  | some x =>
    simp only [hI, Option.isNone_some, Bool.false_eq_true, if_false]
    refine ⟨trivial, trivial, fun h => ?_⟩
    split
    · rfl
    · exact h

theorem defaultStorage_keeps (st : SpecState) :
    (defaultStorage st).2.Version = st.2.Version ∧
      (defaultStorage st).2.Replicas = st.2.Replicas ∧
      (st.1 = true → (defaultStorage st).1 = true) := by
  unfold defaultStorage
  cases hI : st.2.Storage with
  | none => simp [hI]
  | some x =>
    simp only [hI, Option.isNone_some, Bool.false_eq_true, if_false]
    refine ⟨trivial, trivial, fun h => ?_⟩
    split
    · rfl
    · exact h

theorem defaultAutoRecovery_keeps (st : SpecState) :
    (defaultAutoRecovery st).2.Version = st.2.Version ∧
      (defaultAutoRecovery st).2.Replicas = st.2.Replicas ∧
      (st.1 = true → (defaultAutoRecovery st).1 = true) := by
  unfold defaultAutoRecovery
  split <;> simp

theorem defaultProbes_keeps (st : SpecState) :
    (defaultProbes st).2.Version = st.2.Version ∧
      (defaultProbes st).2.Replicas = st.2.Replicas ∧
      (st.1 = true → (defaultProbes st).1 = true) := by
  unfold defaultProbes
  cases hI : st.2.Probes with
  | none => simp [hI]
  | some x =>
    simp only [hI, Option.isNone_some, Bool.false_eq_true, if_false]
    refine ⟨trivial, trivial, fun h => ?_⟩
    split
    · rfl
    · exact h

theorem defaultResources_keeps (st : SpecState) :
    (defaultResources st).2.Version = st.2.Version ∧
      (defaultResources st).2.Replicas = st.2.Replicas ∧
      (st.1 = true → (defaultResources st).1 = true) := by
  unfold defaultResources
  split <;> simp

theorem defaultOptions_keeps (st : SpecState) :
    (defaultOptions st).2.Version = st.2.Version ∧
      (defaultOptions st).2.Replicas = st.2.Replicas ∧
      (st.1 = true → (defaultOptions st).1 = true) := by
  unfold defaultOptions
  split <;> simp

theorem defaultJVMOptions_keeps (st : SpecState) :
    (defaultJVMOptions st).2.Version = st.2.Version ∧
      (defaultJVMOptions st).2.Replicas = st.2.Replicas ∧
      (st.1 = true → (defaultJVMOptions st).1 = true) := by
  unfold defaultJVMOptions
  cases hI : st.2.JVMOptions with
  | none => simp [hI]
  | some x =>
    simp only [hI, Option.isNone_some, Bool.false_eq_true, if_false]
    refine ⟨trivial, trivial, fun h => ?_⟩
    split
    · rfl
    · exact h

theorem defaultBlockOwnerDeletion_keeps (st : SpecState) :
    (defaultBlockOwnerDeletion st).2.Version = st.2.Version ∧
      (defaultBlockOwnerDeletion st).2.Replicas = st.2.Replicas ∧
      (st.1 = true → (defaultBlockOwnerDeletion st).1 = true) := by
  unfold defaultBlockOwnerDeletion
  split <;> simp

theorem defaultVersion_spec (st : SpecState) :
    (defaultVersion st).2.Version =
        (if st.2.Version = "" then DefaultBookkeeperVersion else st.2.Version) ∧
      (defaultVersion st).2.Replicas = st.2.Replicas ∧
      (st.1 = true → (defaultVersion st).1 = true) := by
  unfold defaultVersion
  split <;> simp_all

theorem defaultReplicas_spec (testMode : Bool) (st : SpecState) :
    (defaultReplicas testMode st).2.Version = st.2.Version ∧
      (defaultReplicas testMode st).2.Replicas =
        (if testMode = false ∧ st.2.Replicas < MinimumBookkeeperReplicas then
          MinimumBookkeeperReplicas else st.2.Replicas) ∧
      (st.1 = true → (defaultReplicas testMode st).1 = true) ∧
      (testMode = false → st.2.Replicas < MinimumBookkeeperReplicas →
        (defaultReplicas testMode st).1 = true) := by
  unfold defaultReplicas
  cases testMode <;> by_cases h : st.2.Replicas < MinimumBookkeeperReplicas <;> simp [h]

theorem afterReplicas_spec (st : SpecState) :
    (afterReplicas st).2.Version =
        (if st.2.Version = "" then DefaultBookkeeperVersion else st.2.Version) ∧
      (afterReplicas st).2.Replicas = st.2.Replicas ∧
      (st.1 = true → (afterReplicas st).1 = true) := by
  unfold afterReplicas
  obtain ⟨a1, a2, a3⟩ := defaultStorage_keeps st
  obtain ⟨b1, b2, b3⟩ := defaultAutoRecovery_keeps (defaultStorage st)
  obtain ⟨c1, c2, c3⟩ := defaultProbes_keeps (defaultAutoRecovery (defaultStorage st))
  obtain ⟨d1, d2, d3⟩ := defaultResources_keeps
    (defaultProbes (defaultAutoRecovery (defaultStorage st)))
  obtain ⟨e1, e2, e3⟩ := defaultOptions_keeps
    (defaultResources (defaultProbes (defaultAutoRecovery (defaultStorage st))))
  obtain ⟨f1, f2, f3⟩ := defaultJVMOptions_keeps
    (defaultOptions (defaultResources (defaultProbes (defaultAutoRecovery (defaultStorage st)))))
  obtain ⟨g1, g2, g3⟩ := defaultVersion_spec (defaultJVMOptions
    (defaultOptions (defaultResources (defaultProbes (defaultAutoRecovery (defaultStorage st))))))
  obtain ⟨h1, h2, h3⟩ := defaultBlockOwnerDeletion_keeps (defaultVersion (defaultJVMOptions
    (defaultOptions (defaultResources (defaultProbes (defaultAutoRecovery (defaultStorage st)))))))
  refine ⟨?_, ?_, fun h => h3 (g3 (f3 (e3 (d3 (c3 (b3 (a3 h)))))))⟩
  · rw [h1, g1, f1, e1, d1, c1, b1, a1]
  · rw [h2, g2, f2, e2, d2, c2, b2, a2]

theorem withDefaults_eq (testMode : Bool) (s : BookkeeperClusterSpec) :
    s.withDefaults testMode =
      afterReplicas (defaultReplicas testMode (defaultImage (defaultZookeeperUri (false, s)))) :=
  rfl

/-- C17 (the code departs from its documentation): an empty `Spec.Version`
becomes `DefaultBookkeeperVersion`, which is `"0.7.0"` and not the `"0.4.0"`
that the comment on the field announces; a non-empty version is kept. -/
theorem WithDefaults_version :
    (∀ (Meta Status : Type) (testMode : Bool) (bk : BookkeeperCluster Meta Status),
        (bk.WithDefaults testMode).2.Spec.Version =
          (if bk.Spec.Version = "" then "0.7.0" else bk.Spec.Version)) ∧
      (emptyCluster.WithDefaults false).2.Spec.Version = "0.7.0" ∧
      (emptyCluster.WithDefaults false).2.Spec.Version ≠ "0.4.0" := by
  refine ⟨fun _ _ testMode bk => ?_, by decide, by decide⟩
  show (bk.Spec.withDefaults testMode).2.Version = _
  rw [withDefaults_eq, (afterReplicas_spec _).1, (defaultReplicas_spec _ _).1,
    (defaultImage_keeps _).1, (defaultZookeeperUri_keeps _).1]
  rfl

/-- C18: with test mode off, after `WithDefaults` the replica count is at least
3: a count below 3 (the unset 0 included) becomes exactly 3 and the call reports
a change, a count of 3 or more is kept. -/
theorem WithDefaults_replicas {Meta Status : Type} (bk : BookkeeperCluster Meta Status) :
    3 ≤ (bk.WithDefaults false).2.Spec.Replicas ∧
      (bk.Spec.Replicas < 3 →
        (bk.WithDefaults false).2.Spec.Replicas = 3 ∧ (bk.WithDefaults false).1 = true) ∧
      (3 ≤ bk.Spec.Replicas → (bk.WithDefaults false).2.Spec.Replicas = bk.Spec.Replicas) := by
  have hrep : (bk.WithDefaults false).2.Spec.Replicas =
      (if bk.Spec.Replicas < 3 then 3 else bk.Spec.Replicas) := by
    show (bk.Spec.withDefaults false).2.Replicas = _
    rw [withDefaults_eq, (afterReplicas_spec _).2.1, (defaultReplicas_spec _ _).2.1,
      (defaultImage_keeps _).2.1, (defaultZookeeperUri_keeps _).2.1]
    simp [MinimumBookkeeperReplicas]
  have hch : bk.Spec.Replicas < 3 → (bk.WithDefaults false).1 = true := by
    intro h
    show (bk.Spec.withDefaults false).1 = true
    rw [withDefaults_eq]
    apply (afterReplicas_spec _).2.2
    apply (defaultReplicas_spec _ _).2.2.2 rfl
    rw [(defaultImage_keeps _).2.1, (defaultZookeeperUri_keeps _).2.1]
    exact h
  rw [hrep]
  refine ⟨?_, fun h => ⟨by rw [if_pos h], hch h⟩, fun h => by rw [if_neg (by omega)]⟩
  split <;> omega

/-- Witness of C18: the unset replica count becomes 3 and a change is reported;
a count of 5 is kept. -/
theorem WithDefaults_replicas_witness :
    (emptyCluster.WithDefaults false).2.Spec.Replicas = 3 ∧
      (emptyCluster.WithDefaults false).1 = true ∧
      (({ emptyCluster with Spec := { emptyCluster.Spec with Replicas := 5 } } :
        BookkeeperCluster Unit Unit).WithDefaults false).2.Spec.Replicas = 5 :=
  ⟨((WithDefaults_replicas emptyCluster).2.1 (by decide)).1,
    ((WithDefaults_replicas emptyCluster).2.1 (by decide)).2,
    (WithDefaults_replicas _).2.2 (by decide)⟩

/-! ### Idempotence of the defaults -/

theorem defaultZookeeperUri_eq (st : SpecState) :
    defaultZookeeperUri st =
      (st.1 || decide (st.2.ZookeeperUri = ""),
        { st.2 with ZookeeperUri :=
            if st.2.ZookeeperUri = "" then DefaultZookeeperUri else st.2.ZookeeperUri }) := by
  unfold defaultZookeeperUri
  by_cases h : st.2.ZookeeperUri = "" <;> simp [h]

theorem defaultImage_eq (st : SpecState) :
    defaultImage st =
      (st.1 || (st.2.Image.isNone || (st.2.Image.getD ⟨⟨"", "", ""⟩⟩).withDefaults.1),
        { st.2 with Image := some (st.2.Image.getD ⟨⟨"", "", ""⟩⟩).withDefaults.2 }) := by
  unfold defaultImage
  cases hI : st.2.Image with
  | none => simp [hI]
  | some x => cases h1 : st.1 <;> cases h2 : x.withDefaults.1 <;> simp [hI, h1, h2]

theorem defaultReplicas_eq (testMode : Bool) (st : SpecState) :
    defaultReplicas testMode st =
      (st.1 || (!testMode && decide (st.2.Replicas < MinimumBookkeeperReplicas)),
        { st.2 with Replicas :=
            if !testMode && decide (st.2.Replicas < MinimumBookkeeperReplicas) then
              MinimumBookkeeperReplicas
            else st.2.Replicas }) := by
  unfold defaultReplicas
  cases h : (!testMode && decide (st.2.Replicas < MinimumBookkeeperReplicas)) <;> simp [h]

theorem defaultStorage_eq (st : SpecState) :
    defaultStorage st =
      (st.1 || (st.2.Storage.isNone || (st.2.Storage.getD ⟨none, none, none⟩).withDefaults.1),
        { st.2 with Storage := some (st.2.Storage.getD ⟨none, none, none⟩).withDefaults.2 }) := by
  unfold defaultStorage
  cases hI : st.2.Storage with
  | none => simp [hI]
  | some x => cases h1 : st.1 <;> cases h2 : x.withDefaults.1 <;> simp [hI, h1, h2]

theorem defaultAutoRecovery_eq (st : SpecState) :
    defaultAutoRecovery st =
      (st.1 || st.2.AutoRecovery.isNone,
        { st.2 with AutoRecovery := some (st.2.AutoRecovery.getD true) }) := by
  obtain ⟨c, ⟨u, img, rep, sto, ar, san, pr, res, opt, jvm, env, ver, bod⟩⟩ := st
  cases ar <;> simp [defaultAutoRecovery]

theorem defaultProbes_eq (st : SpecState) :
    defaultProbes st =
      (st.1 || (st.2.Probes.isNone || (st.2.Probes.getD ⟨none, none⟩).withDefaults.1),
        { st.2 with Probes := some (st.2.Probes.getD ⟨none, none⟩).withDefaults.2 }) := by
  unfold defaultProbes
  cases hI : st.2.Probes with
  | none => simp [hI]
  | some x => cases h1 : st.1 <;> cases h2 : x.withDefaults.1 <;> simp [hI, h1, h2]

theorem defaultResources_eq (st : SpecState) :
    defaultResources st =
      (st.1 || st.2.Resources.isNone,
        { st.2 with Resources := some (st.2.Resources.getD defaultResourceRequirements) }) := by
  obtain ⟨c, ⟨u, img, rep, sto, ar, san, pr, res, opt, jvm, env, ver, bod⟩⟩ := st
  cases res <;> simp [defaultResources]

theorem defaultOptions_eq (st : SpecState) :
    defaultOptions st = (st.1, { st.2 with Options := some (st.2.Options.getD []) }) := by
  obtain ⟨c, ⟨u, img, rep, sto, ar, san, pr, res, opt, jvm, env, ver, bod⟩⟩ := st
  cases opt <;> simp [defaultOptions]

theorem defaultJVMOptions_eq (st : SpecState) :
    defaultJVMOptions st =
      (st.1 || (st.2.JVMOptions.isNone ||
          (st.2.JVMOptions.getD ⟨none, none, none, none⟩).withDefaults.1),
        { st.2 with
          JVMOptions := some (st.2.JVMOptions.getD ⟨none, none, none, none⟩).withDefaults.2 }) := by
  unfold defaultJVMOptions
  cases hI : st.2.JVMOptions with
  | none => simp [hI]
  | some x => cases h1 : st.1 <;> cases h2 : x.withDefaults.1 <;> simp [hI, h1, h2]

theorem defaultVersion_eq (st : SpecState) :
    defaultVersion st =
      (st.1 || decide (st.2.Version = ""),
        { st.2 with Version :=
            if st.2.Version = "" then DefaultBookkeeperVersion else st.2.Version }) := by
  unfold defaultVersion
  by_cases h : st.2.Version = "" <;> simp [h]

theorem defaultBlockOwnerDeletion_eq (st : SpecState) :
    defaultBlockOwnerDeletion st =
      (st.1 || st.2.BlockOwnerDeletion.isNone,
        { st.2 with BlockOwnerDeletion := some (st.2.BlockOwnerDeletion.getD true) }) := by
  obtain ⟨c, ⟨u, img, rep, sto, ar, san, pr, res, opt, jvm, env, ver, bod⟩⟩ := st
  cases bod <;> simp [defaultBlockOwnerDeletion]

theorem withDefaults_closed (testMode : Bool) (s : BookkeeperClusterSpec) :
    s.withDefaults testMode = (specChanged testMode s, filledSpec testMode s) := by
  unfold BookkeeperClusterSpec.withDefaults
  rw [defaultZookeeperUri_eq, defaultImage_eq, defaultReplicas_eq, defaultStorage_eq,
    defaultAutoRecovery_eq, defaultProbes_eq, defaultResources_eq, defaultOptions_eq,
    defaultJVMOptions_eq, defaultVersion_eq, defaultBlockOwnerDeletion_eq]
  simp only [Bool.false_or]
  rfl


theorem image_withDefaults_again (x : BookkeeperImageSpec) :
    x.withDefaults.2.withDefaults = (false, x.withDefaults.2) := by
  obtain ⟨⟨repo, tag, pull⟩⟩ := x
  unfold BookkeeperImageSpec.withDefaults
  by_cases h1 : repo = "" <;> by_cases h2 : pull = "" <;>
    simp [h1, h2, DefaultBookkeeperImageRepository, DefaultBookkeeperImagePullPolicy]

theorem storage_withDefaults_again (x : BookkeeperStorageSpec) :
    x.withDefaults.2.withDefaults = (false, x.withDefaults.2) := by
  obtain ⟨l, j, i⟩ := x
  unfold BookkeeperStorageSpec.withDefaults
  cases l <;> cases j <;> cases i <;> simp

theorem probes_withDefaults_again (x : Probes) :
    x.withDefaults.2.withDefaults = (false, x.withDefaults.2) := by
  obtain ⟨r, l⟩ := x
  unfold Probes.withDefaults
  cases r <;> cases l <;> simp

theorem jvm_withDefaults_again (x : JVMOptions) :
    x.withDefaults.2.withDefaults = (false, x.withDefaults.2) := by
  obtain ⟨m, g, gl, e⟩ := x
  unfold JVMOptions.withDefaults
  cases m <;> cases g <;> cases gl <;> cases e <;> simp

theorem filledSpec_replicas (testMode : Bool) (s : BookkeeperClusterSpec) :
    (!testMode && decide ((filledSpec testMode s).Replicas < MinimumBookkeeperReplicas)) =
      false := by
  unfold filledSpec
  cases testMode
  · by_cases h : s.Replicas < MinimumBookkeeperReplicas <;> simp [h]
  · simp

theorem filledSpec_fixed (testMode : Bool) (t : BookkeeperClusterSpec)
    (img : BookkeeperImageSpec) (sto : BookkeeperStorageSpec) (pr : Probes) (jvm : JVMOptions)
    (ar bod : Bool) (res : ResourceRequirements) (opt : List (String × String))
    (hu : t.ZookeeperUri ≠ "") (hv : t.Version ≠ "")
    (hrep : (!testMode && decide (t.Replicas < MinimumBookkeeperReplicas)) = false)
    (hi : t.Image = some img.withDefaults.2) (hs : t.Storage = some sto.withDefaults.2)
    (hp : t.Probes = some pr.withDefaults.2) (hj : t.JVMOptions = some jvm.withDefaults.2)
    (ha : t.AutoRecovery = some ar) (hb : t.BlockOwnerDeletion = some bod)
    (hr : t.Resources = some res) (ho : t.Options = some opt) :
    specChanged testMode t = false ∧ filledSpec testMode t = t := by
  obtain ⟨u, i, rep, s, a, san, p, r, o, j, env, ver, b⟩ := t
  simp only at hu hv hrep hi hs hp hj ha hb hr ho
  subst hi hs hp hj ha hb hr ho
  constructor
  · unfold specChanged
    simp only [hrep]
    simp [hu, hv, image_withDefaults_again, storage_withDefaults_again,
      probes_withDefaults_again, jvm_withDefaults_again]
  · unfold filledSpec
    simp only [hrep]
    simp [hu, hv, image_withDefaults_again, storage_withDefaults_again,
      probes_withDefaults_again, jvm_withDefaults_again]

theorem filledSpec_again (testMode : Bool) (s : BookkeeperClusterSpec) :
    specChanged testMode (filledSpec testMode s) = false ∧
      filledSpec testMode (filledSpec testMode s) = filledSpec testMode s := by
  have hu : (filledSpec testMode s).ZookeeperUri ≠ "" := by
    unfold filledSpec
    by_cases h : s.ZookeeperUri = "" <;> simp [h, DefaultZookeeperUri]
  have hv : (filledSpec testMode s).Version ≠ "" := by
    unfold filledSpec
    by_cases h : s.Version = "" <;> simp [h, DefaultBookkeeperVersion]
  exact filledSpec_fixed testMode (filledSpec testMode s) _ _ _ _ _ _ _ _ hu hv
    (filledSpec_replicas testMode s) rfl rfl rfl rfl rfl rfl rfl rfl

/-- C21: for every cluster resource and either setting of the test mode, a
second `WithDefaults` after a first one reports no change and returns the
resource it was given: every field of the spec is as the first call left it. -/
theorem WithDefaults_idempotent {Meta Status : Type} (testMode : Bool)
    (bk : BookkeeperCluster Meta Status) :
    ((bk.WithDefaults testMode).2.WithDefaults testMode).1 = false ∧
      ((bk.WithDefaults testMode).2.WithDefaults testMode).2.Spec =
        (bk.WithDefaults testMode).2.Spec ∧
      ((bk.WithDefaults testMode).2.WithDefaults testMode).2 = (bk.WithDefaults testMode).2 := by
  unfold BookkeeperCluster.WithDefaults
  simp only [withDefaults_closed, (filledSpec_again testMode bk.Spec).1,
    (filledSpec_again testMode bk.Spec).2]
  exact ⟨trivial, trivial, trivial⟩

/-- Witness of C21: on the all-zero resource the first call reports a change,
the second none, and the spec stays as the first call left it. -/
theorem WithDefaults_idempotent_witness :
    (emptyCluster.WithDefaults false).1 = true ∧
      ((emptyCluster.WithDefaults false).2.WithDefaults false).1 = false ∧
      ((emptyCluster.WithDefaults false).2.WithDefaults false).2.Spec =
        (emptyCluster.WithDefaults false).2.Spec :=
  ⟨by decide, (WithDefaults_idempotent false emptyCluster).1,
    (WithDefaults_idempotent false emptyCluster).2.1⟩

end BookkeeperOperator
